import Mathlib

set_option maxHeartbeats 1000000

/-!
Verification development for the anzu language implementation.

This file gives a shallow embedding, in Lean, of the byte-code VM
(`src/src/runtime.cpp`) and the lexer (`src/src/lexer.cpp`) of the anzu
repository, and proves or refutes a collection of claims about them.

Machine integers are modelled as `Nat` with explicit reductions `% 2 ^ 64`
(resp. `% 2 ^ 32`, `% 256`) at the points where the C++ code performs
modular (unsigned overflow) arithmetic.  The VM stack
(`std::vector<std::byte>`) is a `List Nat` of byte values; the heap arena
is a total map `Nat → Nat` from byte offsets to byte values (the real
arena manages capacity so that every allocated offset is addressable).
-/

namespace Anzu

/-- Little-endian byte encoding of a `w`-byte unsigned value, as performed by
`push_value`/`write_value` (`utility/memory.hpp`): byte `i` is
`(v >> 8*i) & 0xff`.  The encoding reduces `v` modulo `256 ^ w`. -/
def toBytesLE : Nat → Nat → List Nat
  | 0, _ => []
  | w + 1, v => v % 256 :: toBytesLE w (v / 256)

/-- Little-endian byte decoding, as performed by `pop_value`/`read_value`
(`utility/memory.hpp`). -/
def fromBytesLE : List Nat → Nat
  | [] => 0
  | b :: bs => b + 256 * fromBytesLE bs

/-- Modelled from the spec: the heap allocator of `utility/memory.hpp` (not
present under `src/`).  Per spec sections 3 and 4.5 it hands out byte ranges
at offsets inside the heap arena and keeps a running ledger
`bytes_allocated()`: `allocate(n)` obtains `n` fresh bytes at some heap
offset and grows the ledger by `n`; `deallocate(p, n)` returns `n` bytes to
the allocator, shrinking the ledger by `n`.  The model is a bump allocator;
only the ledger behaviour matters for the claims below. -/
structure Allocator where
  bytesAllocated : Nat
  nextOffset : Nat
deriving Repr, DecidableEq

/-- Modelled from the spec: obtain `n` bytes at a fresh heap offset. -/
def Allocator.allocate (a : Allocator) (n : Nat) : Nat × Allocator :=
  (a.nextOffset, ⟨a.bytesAllocated + n, a.nextOffset + n⟩)

/-- Modelled from the spec: return `n` bytes (at offset `p`) to the
allocator. -/
def Allocator.deallocate (a : Allocator) (_p n : Nat) : Allocator :=
  ⟨a.bytesAllocated - n, a.nextOffset⟩

/-- The VM state `runtime_context` (declared in `runtime.hpp`, used
throughout `src/src/runtime.cpp`): byte stack, heap arena plus its
allocator, and the two registers `base_ptr` and `prog_ptr`. -/
structure RuntimeContext where
  stack : List Nat
  heap : Nat → Nat
  allocator : Allocator
  base_ptr : Nat
  prog_ptr : Nat

/-- A default-constructed `runtime_context`: empty stack, zeroed arena,
fresh allocator, both registers zero. -/
def initContext : RuntimeContext :=
  { stack := [], heap := fun _ => 0, allocator := ⟨0, 0⟩, base_ptr := 0, prog_ptr := 0 }

/-- The subset of the op variant (`op.hpp`) exercised by the claims:
immediate-data ops, the three integer division ops, the memory ops, and
the control-flow ops.  The remaining arithmetic/comparison ops,
`op_builtin_call` (which carries a native function pointer) and `op_debug`
are not referenced by any claim and are omitted. -/
inductive Op where
  | op_load_bytes (bytes : List Nat)
  | op_push_global_addr (position : Nat)
  | op_push_local_addr (offset : Nat)
  | op_i32_div
  | op_i64_div
  | op_u64_div
  | op_load (size : Nat)
  | op_save (size : Nat)
  | op_pop (size : Nat)
  | op_allocate (type_size : Nat)
  | op_deallocate
  | op_jump (jump : Nat)
  | op_jump_if_false (jump : Nat)
  | op_function (jump : Nat)
  | op_return (size : Nat)
  | op_function_call (ptr : Nat) (args_size : Nat)
deriving Repr, DecidableEq

/-- Result of dispatching one op: either the successor context, or the
fatal print-and-`std::exit(1)` path taken by `runtime_assert`
(`runtime.cpp` lines 38-45) with its formatted message. -/
inductive StepResult where
  | ok (ctx : RuntimeContext)
  | fatal (msg : String)

/-- Whether a step succeeded (did not take the runtime-error path). -/
def StepResult.isOk : StepResult → Bool
  | .ok _ => true
  | .fatal _ => false

/-- Stack of the successor context (`[]` on the fatal path). -/
def StepResult.stackOf : StepResult → List Nat
  | .ok c => c.stack
  | .fatal _ => []

/-- `base_ptr` of the successor context (`0` on the fatal path). -/
def StepResult.basePtrOf : StepResult → Nat
  | .ok c => c.base_ptr
  | .fatal _ => 0

/-- `prog_ptr` of the successor context (`0` on the fatal path). -/
def StepResult.progPtrOf : StepResult → Nat
  | .ok c => c.prog_ptr
  | .fatal _ => 0

/-- `bytes_allocated()` ledger of the successor context. -/
def StepResult.bytesAllocatedOf : StepResult → Nat
  | .ok c => c.allocator.bytesAllocated
  | .fatal _ => 0

/-- Heap byte at offset `i` of the successor context. -/
def StepResult.heapAt : StepResult → Nat → Nat
  | .ok c, i => c.heap i
  | .fatal _, _ => 0

/-- `pop_value<T>` (`utility/memory.hpp`): read the top `n` bytes of the
stack as a little-endian value and shrink the stack by `n`. -/
def popValue (n : Nat) (stack : List Nat) : Nat × List Nat :=
  (fromBytesLE (stack.drop (stack.length - n)), stack.take (stack.length - n))

/-- `read_value<u64>`: decode 8 bytes at offset `off`. -/
def readValue (l : List Nat) (off : Nat) : Nat :=
  fromBytesLE ((l.drop off).take 8)

/-- Overwrite the bytes of `l` at offsets `[off, off + bs.length)` with
`bs` (the effect of `write_value`/`memcpy` into a live vector region;
meaningful when `off + bs.length ≤ l.length`, which the C++ code requires
for well-defined behaviour). -/
def writeBytes (l : List Nat) (off : Nat) (bs : List Nat) : List Nat :=
  l.take off ++ bs ++ l.drop (off + bs.length)

/-- The last `n` elements of a list (the top `n` stack bytes). -/
def lastN (n : Nat) (l : List Nat) : List Nat :=
  l.drop (l.length - n)

/-- `std::memcpy(&l[dst], &l[src], n)` within one buffer, under the
memmove reading: all source bytes are the original ones.  This is the
semantics the spec prescribes (sections 4.5 and 5); the C++ source calls
`std::memcpy`, whose behaviour is undefined when the two ranges overlap —
see the claim C5 material below. -/
def spliceCopy (l : List Nat) (dst src n : Nat) : List Nat :=
  l.take dst ++ (l.drop src).take n ++ l.drop (dst + n)

/-- A conforming realization of `memcpy` for non-overlapping ranges that
copies one byte at a time from the highest index downwards, each read
seeing earlier writes.  On overlapping ranges with `dst < src` it clobbers
the tail of the source before reading it, unlike `memmove`. -/
def memcpyBackward (l : List Nat) (dst src : Nat) : Nat → List Nat
  | 0 => l
  | n + 1 => memcpyBackward (l.set (dst + n) (l.getD (src + n) 0)) dst src n

/-- `std::vector::resize(m)`: truncate to `m` elements, or grow with
zero-initialised elements. -/
def resizeList (l : List Nat) (m : Nat) : List Nat :=
  if m ≤ l.length then l.take m else l ++ List.replicate (m - l.length) 0

/-- Bytes `[off, off + n)` of the heap arena. -/
def heapBytes (h : Nat → Nat) (off n : Nat) : List Nat :=
  (List.range n).map fun i => h (off + i)

/-- Overwrite heap bytes `[off, off + bs.length)` with `bs`. -/
def heapWrite (h : Nat → Nat) (off : Nat) (bs : List Nat) : Nat → Nat :=
  fun i => if off ≤ i ∧ i < off + bs.length then bs.getD (i - off) 0 else h i

/-- A 32-bit two's-complement load: bytes decoded as `Nat`, reinterpreted
as `int32_t`. -/
def asInt32 (v : Nat) : Int :=
  if v < 2 ^ 31 then (v : Int) else (v : Int) - 2 ^ 32

/-- A 64-bit two's-complement load (`int64_t`). -/
def asInt64 (v : Nat) : Int :=
  if v < 2 ^ 63 then (v : Int) else (v : Int) - 2 ^ 64

/-- Two's-complement store of an `Int` as an unsigned 32-bit value. -/
def toU32 (i : Int) : Nat := (i % (2 ^ 32 : Int)).toNat

/-- Two's-complement store of an `Int` as an unsigned 64-bit value. -/
def toU64 (i : Int) : Nat := (i % (2 ^ 64 : Int)).toNat

/-- `binary_op<std::int32_t, Op>` (`runtime.cpp` lines 47-55): pop `rhs`
then `lhs` (4 bytes each), push `op(lhs, rhs)`, advance `prog_ptr`.
There is no guard of any kind around `op`.  (For division, C++ signed
division truncates towards zero, matching `Int.tdiv`; division by zero is
undefined behaviour in C++ and total in this model — the modelled claims
only concern the absence of the error branch.) -/
def binaryOpI32 (f : Int → Int → Int) (ctx : RuntimeContext) : RuntimeContext :=
  let r := popValue 4 ctx.stack
  let l := popValue 4 r.2
  { ctx with
    stack := l.2 ++ toBytesLE 4 (toU32 (f (asInt32 l.1) (asInt32 r.1)))
    prog_ptr := ctx.prog_ptr + 1 }

/-- `binary_op<std::int64_t, Op>`: as `binaryOpI32` with 8-byte operands. -/
def binaryOpI64 (f : Int → Int → Int) (ctx : RuntimeContext) : RuntimeContext :=
  let r := popValue 8 ctx.stack
  let l := popValue 8 r.2
  { ctx with
    stack := l.2 ++ toBytesLE 8 (toU64 (f (asInt64 l.1) (asInt64 r.1)))
    prog_ptr := ctx.prog_ptr + 1 }

/-- `binary_op<std::uint64_t, Op>`: unsigned 8-byte operands. -/
def binaryOpU64 (f : Nat → Nat → Nat) (ctx : RuntimeContext) : RuntimeContext :=
  let r := popValue 8 ctx.stack
  let l := popValue 8 r.2
  { ctx with
    stack := l.2 ++ toBytesLE 8 (f l.1 r.1)
    prog_ptr := ctx.prog_ptr + 1 }

/-- `apply_op` (`runtime.cpp` lines 57-218), restricted to the ops of `Op`.

Pointer-tag helpers from lines 16-35: `set_top_bit x = x | (1 << 63)`,
`unset_top_bit x = x & ~(1 << 63)` (for `x < 2 ^ 64` this is `x % 2 ^ 63`),
`get_top_bit x = x & (1 << 63)` (that is, `x.testBit 63`).  There is no
second (rodata) tag bit anywhere in `runtime.cpp`, and no rodata region in
`runtime_context`: `op_load`/`op_save` discriminate on bit 63 only.

In `op_load`'s stack branch the C++ pushes while reading
(`ctx.stack.push_back(ctx.stack[ptr + i])`), so the read may observe
freshly pushed bytes; the fold below reproduces exactly that.

In `op_save`'s stack branch the bounds `runtime_assert` is live, but the
`memcpy` and `resize` are guarded by the strict test
`ptr + op.size < ctx.stack.size()`: at equality nothing happens (the
commented-out assert and this guard are quoted in spec section 9).

`op_deallocate` computes `unset_top_bit(ptr) - sizeof(u64)` in `u64`
arithmetic, hence the `+ 2 ^ 64 - 8` reduction. -/
def applyOp (ctx : RuntimeContext) : Op → StepResult
  | .op_load_bytes bs =>
      .ok { ctx with stack := ctx.stack ++ bs, prog_ptr := ctx.prog_ptr + 1 }
  | .op_push_global_addr pos =>
      .ok { ctx with stack := ctx.stack ++ toBytesLE 8 pos, prog_ptr := ctx.prog_ptr + 1 }
  | .op_push_local_addr off =>
      .ok { ctx with stack := ctx.stack ++ toBytesLE 8 (ctx.base_ptr + off)
                     prog_ptr := ctx.prog_ptr + 1 }
  | .op_i32_div => .ok (binaryOpI32 Int.tdiv ctx)
  | .op_i64_div => .ok (binaryOpI64 Int.tdiv ctx)
  | .op_u64_div => .ok (binaryOpU64 (· / ·) ctx)
  | .op_load n =>
      let p := popValue 8 ctx.stack
      if p.1.testBit 63 then
        .ok { ctx with stack := p.2 ++ heapBytes ctx.heap (p.1 % 2 ^ 63) n
                       prog_ptr := ctx.prog_ptr + 1 }
      else
        .ok { ctx with
              stack := (List.range n).foldl (fun st i => st ++ [st.getD (p.1 + i) 0]) p.2
              prog_ptr := ctx.prog_ptr + 1 }
  | .op_save n =>
      let p := popValue 8 ctx.stack
      if p.1.testBit 63 then
        .ok { ctx with heap := heapWrite ctx.heap (p.1 % 2 ^ 63) (lastN n p.2)
                       stack := p.2.take (p.2.length - n)
                       prog_ptr := ctx.prog_ptr + 1 }
      else if p.1 + n ≤ p.2.length then
        if p.1 + n < p.2.length then
          .ok { ctx with stack := (spliceCopy p.2 p.1 (p.2.length - n) n).take (p.2.length - n)
                         prog_ptr := ctx.prog_ptr + 1 }
        else
          .ok { ctx with stack := p.2, prog_ptr := ctx.prog_ptr + 1 }
      else
        .fatal ("tried to access invalid memory address " ++ toString p.1)
  | .op_pop n =>
      .ok { ctx with stack := ctx.stack.take (ctx.stack.length - n)
                     prog_ptr := ctx.prog_ptr + 1 }
  | .op_allocate tsize =>
      let p := popValue 8 ctx.stack
      let a := ctx.allocator.allocate ((p.1 * tsize + 8) % 2 ^ 64)
      .ok { stack := p.2 ++ toBytesLE 8 (((a.1 + 8) % 2 ^ 64) ||| 2 ^ 63)
            heap := heapWrite ctx.heap a.1 (toBytesLE 8 (p.1 * tsize))
            allocator := a.2
            base_ptr := ctx.base_ptr
            prog_ptr := ctx.prog_ptr + 1 }
  | .op_deallocate =>
      let p := popValue 8 ctx.stack
      if p.1.testBit 63 then
        let hp := (p.1 % 2 ^ 63 + 2 ^ 64 - 8) % 2 ^ 64
        .ok { ctx with
              stack := p.2
              allocator := ctx.allocator.deallocate hp
                ((fromBytesLE (heapBytes ctx.heap hp 8) + 8) % 2 ^ 64)
              prog_ptr := ctx.prog_ptr + 1 }
      else
        .fatal "cannot delete a pointer to stack memory\n"
  | .op_jump j =>
      .ok { ctx with prog_ptr := (ctx.prog_ptr + j) % 2 ^ 64 }
  | .op_jump_if_false j =>
      let p := popValue 1 ctx.stack
      if p.1 ≠ 0 then
        .ok { ctx with stack := p.2, prog_ptr := ctx.prog_ptr + 1 }
      else
        .ok { ctx with stack := p.2, prog_ptr := (ctx.prog_ptr + j) % 2 ^ 64 }
  | .op_function j =>
      .ok { ctx with prog_ptr := j }
  | .op_return n =>
      .ok { ctx with
            stack := resizeList
              (spliceCopy ctx.stack ctx.base_ptr (ctx.stack.length - n) n)
              (ctx.base_ptr + n)
            base_ptr := readValue ctx.stack ctx.base_ptr
            prog_ptr := readValue ctx.stack (ctx.base_ptr + 8) }
  | .op_function_call target args_size =>
      let newBase := ctx.stack.length - args_size
      .ok { ctx with
            stack := writeBytes (writeBytes ctx.stack newBase (toBytesLE 8 ctx.base_ptr))
              (newBase + 8) (toBytesLE 8 (ctx.prog_ptr + 1))
            base_ptr := newBase
            prog_ptr := target }

/-- Outcome of the dispatch loop `run_program` (`runtime.cpp` lines
220-232): normal halt (carrying the value of the final
`allocator.bytes_allocated()` leak check), the fatal runtime-error path,
or fuel exhaustion of the model. -/
inductive RunOutcome where
  | halted (leakedBytes : Nat)
  | fatal (msg : String)
  | outOfFuel
deriving Repr

/-- Whether the run halted normally (reaching the leak check). -/
def RunOutcome.isHalted : RunOutcome → Bool
  | .halted _ => true
  | _ => false

/-- The dispatch loop of `run_program`: ops are dispatched only while
`prog_ptr < program.size()`; once `prog_ptr` is at or past the end, the
loop exits and the heap-leak check runs.  `fuel` bounds the number of
iterations of the model only. -/
def runLoop (program : List Op) : Nat → RuntimeContext → RunOutcome
  | 0, _ => .outOfFuel
  | fuel + 1, ctx =>
      if h : ctx.prog_ptr < program.length then
        match applyOp ctx (program.get ⟨ctx.prog_ptr, h⟩) with
        | .ok c => runLoop program fuel c
        | .fatal m => .fatal m
      else
        .halted ctx.allocator.bytesAllocated

/-!
Lexer embedding (`src/src/lexer.cpp`).

The scanner's `start`/`curr`/`end` iterators into the source buffer are
modelled by keeping the not-yet-consumed suffix of the source as a
`List Char`; a token's `text` (a slice of the source in C++) is the list
of characters it covers.  `peek` at the end of the buffer reads the
`std::string` null terminator in C++, modelled by the `'\x00'` default;
`std::isalpha`/`std::isdigit` are the ASCII classifiers (the lexer treats
only ASCII specially, spec section 6).
-/

inductive TokenType where
  | kw_assert | kw_bool | kw_break | kw_char | kw_continue | kw_default
  | kw_delete | kw_else | kw_f64 | kw_false | kw_for | kw_function
  | kw_i32 | kw_i64 | kw_if | kw_import | kw_in | kw_loop | kw_new
  | kw_null | kw_return | kw_sizeof | kw_struct | kw_true | kw_typeof
  | kw_u64 | kw_while
  | left_paren | right_paren | left_brace | right_brace | semicolon
  | comma | dot | minus | plus | slash | star | bang_equal | bang
  | equal_equal | equal | less_equal | less | greater_equal | greater
  | ampersand | ampersand_ampersand | colon_equal | colon
  | left_bracket | right_bracket | percent | bar_bar | bar | arrow
  | identifier | int32 | int64 | uint64 | float64 | character | string
  | eof
deriving Repr, DecidableEq

/-- A token: borrowed text slice, position, kind (`lexer.hpp`). -/
structure Token where
  text : List Char
  line : Nat
  col : Nat
  type : TokenType
deriving Repr, DecidableEq

/-- Scanner state: remaining input and the `(line, col)` cursor
(1-based, per the `scanner` member initialisers in `lexer.hpp`). -/
structure LexState where
  rest : List Char
  line : Nat
  col : Nat
deriving Repr, DecidableEq

/-- `std::isalpha` under the C locale, restricted to ASCII. -/
def isAlpha (c : Char) : Bool :=
  ('A' ≤ c && c ≤ 'Z') || ('a' ≤ c && c ≤ 'z')

/-- `std::isdigit`. -/
def isDigit (c : Char) : Bool :=
  '0' ≤ c && c ≤ '9'

/-- The identifier-continuation test of `make_identifier` (line 160):
`isalpha || isdigit || '_'`. -/
def isIdentChar (c : Char) : Bool :=
  isAlpha c || isDigit c || c = '_'

/-- The comparison chain of `identifier_type` (`lexer.cpp` lines
61-121), as an ordered association list searched front to back — one
entry per `if (token == "...") return ...;` line, in source order. -/
def keywordMap : List (String × TokenType) :=
  [("assert", .kw_assert), ("bool", .kw_bool), ("break", .kw_break),
   ("char", .kw_char), ("continue", .kw_continue), ("default", .kw_default),
   ("delete", .kw_delete), ("else", .kw_else), ("f64", .kw_f64),
   ("false", .kw_false), ("for", .kw_for), ("fn", .kw_function),
   ("i32", .kw_i32), ("i64", .kw_i64), ("if", .kw_if),
   ("import", .kw_import), ("in", .kw_in), ("loop", .kw_loop),
   ("new", .kw_new), ("null", .kw_null), ("return", .kw_return),
   ("sizeof", .kw_sizeof), ("struct", .kw_struct), ("true", .kw_true),
   ("typeof", .kw_typeof), ("u64", .kw_u64), ("while", .kw_while),
   ("(", .left_paren), (")", .right_paren), ("\x7b", .left_brace),
   ("\x7d", .right_brace), (";", .semicolon), (",", .comma),
   (".", .dot), ("-", .minus), ("+", .plus), ("/", .slash),
   ("*", .star), ("!=", .bang_equal), ("!", .bang),
   ("==", .equal_equal), ("=", .equal), ("<=", .less_equal),
   ("<", .less), (">=", .greater_equal), (">", .greater),
   ("&", .ampersand), ("&&", .ampersand_ampersand),
   (":=", .colon_equal), (":", .colon), ("[", .left_bracket),
   ("]", .right_bracket), ("%", .percent), ("||", .bar_bar),
   ("|", .bar), ("->", .arrow)]

/-- `identifier_type`: the final keyword lookup over the token text,
falling back to `identifier`.  (The punctuation entries are in the C++
function and are kept even though an alphabetic token never matches
them.) -/
def identifierType (s : List Char) : TokenType :=
  (keywordMap.lookup s.asString).getD .identifier

/-- `skip_whitespace` (`lexer.cpp` lines 123-148) as a single character
scan.  `inComment` records being inside a `#`-to-end-of-line comment (the
C++ inner loop); the comment loop stops at `'\n'` without consuming it
and the outer `switch` then treats it as a newline, which is exactly the
`c = '\n'` arm below. -/
def skipWsAux : List Char → Nat → Nat → Bool → LexState
  | [], line, col, _ => ⟨[], line, col⟩
  | c :: cs, line, col, inC =>
      if c = '\n' then skipWsAux cs (line + 1) 1 false
      else if inC then skipWsAux cs line (col + 1) true
      else if c = ' ' ∨ c = '\r' ∨ c = '\t' then skipWsAux cs line (col + 1) false
      else if c = '#' then skipWsAux cs line (col + 1) true
      else ⟨c :: cs, line, col⟩

/-- `skip_whitespace` applied to a scanner state. -/
def skipWhitespace (s : LexState) : LexState :=
  skipWsAux s.rest s.line s.col false

/-- Recogniser for the character sequences `skip_whitespace` can consume:
whitespace characters and `#`-comments (a trailing unfinished comment is
allowed, at end of input). -/
def isWsChunkAux : List Char → Bool → Bool
  | [], _ => true
  | c :: cs, inC =>
      if c = '\n' then isWsChunkAux cs false
      else if inC then isWsChunkAux cs true
      else if c = ' ' ∨ c = '\r' ∨ c = '\t' then isWsChunkAux cs false
      else if c = '#' then isWsChunkAux cs true
      else false

/-- A chunk of whitespace and comments (outside any token). -/
def isWsChunk (l : List Char) : Bool :=
  isWsChunkAux l false

/-- Result of the `make_literal` scan loop (`lexer.cpp` lines 182-199):
the characters strictly between the delimiters plus the state after the
closing delimiter, or the `Unterminated string` position. -/
inductive LitScan where
  | found (inner rest : List Char) (line col : Nat)
  | unterminated (line col : Nat)
deriving Repr, DecidableEq

/-- The scan loop of `make_literal`: consume until the delimiter
(tracking newlines), then consume the closing delimiter. -/
def literalScan (delim : Char) : List Char → Nat → Nat → LitScan
  | [], line, col => .unterminated line col
  | c :: cs, line, col =>
      if c = delim then .found [] cs line (col + 1)
      else
        match (if c = '\n' then literalScan delim cs (line + 1) 2
               else literalScan delim cs line (col + 1)) with
        | .found inner rest l2 c2 => .found (c :: inner) rest l2 c2
        | .unterminated l2 c2 => .unterminated l2 c2

/-- `make_token` (lines 150-156): text is the span `start..curr`, `line`
is the cursor line, `col` is the cursor column minus the text length. -/
def mkToken (endState : LexState) (span : List Char) (tt : TokenType) : Token :=
  { text := span, line := endState.line, col := endState.col - span.length, type := tt }

/-- One `scanner::get_token()` call: a token plus successor state, the
eof token, or the `lexer_error` print-and-exit path with its position and
message. -/
inductive GetTokenResult where
  | tok (t : Token) (s : LexState)
  | eofTok (s : LexState)
  | err (line col : Nat) (msg : String)
deriving Repr, DecidableEq

/-- `make_identifier` (lines 158-162): consume the maximal run of
letters, digits and underscores, then apply the keyword lookup. -/
def identTok (c : Char) (cs : List Char) (ln co : Nat) : GetTokenResult :=
  let tail := cs.takeWhile isIdentChar
  let s2 : LexState := ⟨cs.dropWhile isIdentChar, ln, co + tail.length⟩
  .tok (mkToken s2 (c :: tail) (identifierType (c :: tail))) s2

/-- The suffix matching of `make_number` (lines 175-179): try `u64`,
then `u`, then `i32`, then `i64` (each `match` rolls back on failure,
here first-match patterns); return the consumed suffix, the token type
and the remaining input. -/
def numberSuffix (r1 : List Char) : List Char × TokenType × List Char :=
  match r1 with
  | 'u' :: '6' :: '4' :: r2 => (['u', '6', '4'], .uint64, r2)
  | 'u' :: r2 => (['u'], .uint64, r2)
  | 'i' :: '3' :: '2' :: r2 => (['i', '3', '2'], .int32, r2)
  | 'i' :: '6' :: '4' :: r2 => (['i', '6', '4'], .int64, r2)
  | r2 => ([], .int64, r2)

/-- `make_number` (lines 164-180): digits, then either a fractional part
(a `.` followed by a digit) giving `float64`, or an integer suffix. -/
def numberTok (c : Char) (cs : List Char) (ln co : Nat) : GetTokenResult :=
  let d1 := cs.takeWhile isDigit
  let r1 := cs.dropWhile isDigit
  let c1 := co + d1.length
  if r1.headD '\x00' = '.' && isDigit (r1.getD 1 '\x00') then
    let d2 := r1.tail.takeWhile isDigit
    let s2 : LexState := ⟨r1.tail.dropWhile isDigit, ln, c1 + 1 + d2.length⟩
    .tok (mkToken s2 (c :: d1 ++ '.' :: d2) .float64) s2
  else
    let suf := numberSuffix r1
    let s2 : LexState := ⟨suf.2.2, ln, c1 + suf.1.length⟩
    .tok (mkToken s2 (c :: d1 ++ suf.1) suf.2.1) s2

/-- `make_char` (lines 206-213): scan the literal, reject inner text not
of length 1, trim the delimiters off the token text. -/
def charLitTok (cs : List Char) (ln co : Nat) : GetTokenResult :=
  match literalScan '\x27' cs ln co with
  | .unterminated l2 c2 => .err l2 c2 "Unterminated string"
  | .found inner rest l2 c2 =>
      if inner.length ≠ 1 then
        .err l2 c2 ("Char literal is not one character! Got \x27"
          ++ inner.asString ++ "\x27 (" ++ toString inner.length ++ ")")
      else
        .tok { text := inner, line := l2, col := c2 - (inner.length + 2),
               type := .character } ⟨rest, l2, c2⟩

/-- `make_string` (lines 201-204): scan the literal, trim the delimiters
off the token text. -/
def stringLitTok (cs : List Char) (ln co : Nat) : GetTokenResult :=
  match literalScan '"' cs ln co with
  | .unterminated l2 c2 => .err l2 c2 "Unterminated string"
  | .found inner rest l2 c2 =>
      .tok { text := inner, line := l2, col := c2 - (inner.length + 2),
             type := .string } ⟨rest, l2, c2⟩

/-- The punctuation switch of `get_token` (lines 245-274): the consumed
span (two-character combinations preferred over single characters), the
token type and the remaining input; `none` for an unknown character. -/
def puncLookup (c : Char) (cs : List Char) : Option (List Char × TokenType × List Char) :=
  if c = '(' then some ([c], .left_paren, cs)
  else if c = ')' then some ([c], .right_paren, cs)
  else if c = '\x7b' then some ([c], .left_brace, cs)
  else if c = '\x7d' then some ([c], .right_brace, cs)
  else if c = '[' then some ([c], .left_bracket, cs)
  else if c = ']' then some ([c], .right_bracket, cs)
  else if c = ';' then some ([c], .semicolon, cs)
  else if c = ',' then some ([c], .comma, cs)
  else if c = '.' then some ([c], .dot, cs)
  else if c = '-' then
    (if cs.headD '\x00' = '>' then some ([c, '>'], .arrow, cs.tail)
     else some ([c], .minus, cs))
  else if c = '+' then some ([c], .plus, cs)
  else if c = '/' then some ([c], .slash, cs)
  else if c = '*' then some ([c], .star, cs)
  else if c = '%' then some ([c], .percent, cs)
  else if c = '!' then
    (if cs.headD '\x00' = '=' then some ([c, '='], .bang_equal, cs.tail)
     else some ([c], .bang, cs))
  else if c = '=' then
    (if cs.headD '\x00' = '=' then some ([c, '='], .equal_equal, cs.tail)
     else some ([c], .equal, cs))
  else if c = '<' then
    (if cs.headD '\x00' = '=' then some ([c, '='], .less_equal, cs.tail)
     else some ([c], .less, cs))
  else if c = '>' then
    (if cs.headD '\x00' = '=' then some ([c, '='], .greater_equal, cs.tail)
     else some ([c], .greater, cs))
  else if c = ':' then
    (if cs.headD '\x00' = '=' then some ([c, '='], .colon_equal, cs.tail)
     else some ([c], .colon, cs))
  else if c = '|' then
    (if cs.headD '\x00' = '|' then some ([c, '|'], .bar_bar, cs.tail)
     else some ([c], .bar, cs))
  else if c = '&' then
    (if cs.headD '\x00' = '&' then some ([c, '&'], .ampersand_ampersand, cs.tail)
     else some ([c], .ampersand, cs))
  else none

/-- `scanner::get_token` (`lexer.cpp` lines 233-282) together with the
helpers it calls (`make_identifier`, `make_number`, `make_string`,
`make_char`, lines 158-213).  Notes:
* the identifier branch is entered on `isalpha(c)` only — an underscore
  is not dispatched there and falls through the punctuation switch to the
  `Unknown token` error;
* `make_number` prefers a fractional part, then the suffixes `u64`, `u`,
  `i32`, `i64` (with rollback, here literal patterns);
* `make_literal` trims the delimiters off the token text after building
  the token (`remove_prefix`/`remove_suffix`), and `make_char` rejects
  inner text whose length is not exactly 1;
* two-character punctuation is preferred over single-character. -/
def getTokenAfterWs (s1 : LexState) : GetTokenResult :=
  match s1.rest with
  | [] => .eofTok s1
  | c :: cs =>
      let ln := s1.line
      let co := s1.col + 1
      if isAlpha c then identTok c cs ln co
      else if isDigit c then numberTok c cs ln co
      else if c = '\x27' then charLitTok cs ln co
      else if c = '"' then stringLitTok cs ln co
      else
        match puncLookup c cs with
        | some r => .tok (mkToken ⟨r.2.2, ln, co + (r.1.length - 1)⟩ r.1 r.2.1)
                         ⟨r.2.2, ln, co + (r.1.length - 1)⟩
        | none => .err ln co "Unknown token"

/-- `scanner::get_token`: skip whitespace and comments, then dispatch on
the next character. -/
def getToken (s0 : LexState) : GetTokenResult :=
  getTokenAfterWs (skipWhitespace s0)

/-- Result of scanning a whole source to eof: the emitted tokens (the eof
sentinel excluded), a fatal lexer error, or model fuel exhaustion. -/
inductive ScanResult where
  | ok (toks : List Token)
  | fatal (line col : Nat) (msg : String)
  | outOfFuel
deriving Repr, DecidableEq

/-- Repeated `get_token` until eof (the loop of `lex_print` /
`tokenstream`), with fuel. -/
def scanAux : Nat → LexState → ScanResult
  | 0, _ => .outOfFuel
  | fuel + 1, s =>
      match getToken s with
      | .eofTok _ => .ok []
      | .err l c m => .fatal l c m
      | .tok t s2 =>
          match scanAux fuel s2 with
          | .ok ts => .ok (t :: ts)
          | r => r

/-- Scan a source text from the initial scanner state.  The fuel
`src.length + 1` always suffices (each emitted token consumes at least
one character). -/
def scanTokens (src : List Char) : ScanResult :=
  scanAux (src.length + 1) ⟨src, 1, 1⟩

/-- The characters of the source a token covers: its `text`, plus the two
delimiters that `make_literal` trimmed off for string and character
literals. -/
def rawText (t : Token) : List Char :=
  match t.type with
  | .string => '"' :: t.text ++ ['"']
  | .character => '\x27' :: t.text ++ ['\x27']
  | _ => t.text

/-- The claim's reading of "the source minus comments and whitespace": a
character-level strip of whitespace characters and `#`-to-end-of-line
comments (`inC` marks being inside a comment). -/
def stripWsAux : List Char → Bool → List Char
  | [], _ => []
  | c :: cs, inC =>
      if c = '\n' then stripWsAux cs false
      else if inC then stripWsAux cs true
      else if c = ' ' ∨ c = '\r' ∨ c = '\t' then stripWsAux cs false
      else if c = '#' then stripWsAux cs true
      else c :: stripWsAux cs false

/-- The source minus comments and whitespace, per the claim's words. -/
def stripWsComments (l : List Char) : List Char :=
  stripWsAux l false

/-!
Tokenstream (`lexer.cpp` lines 293-354).  Only the two-token lookahead
window matters for the claims; `valid()` and `token::error` are declared
in `lexer.hpp`, which is not under `src/`, and are modelled from the
spec: `valid()` holds while the current token exists (is not the eof
sentinel), and `token::error` prints `[ERROR] (line:col) msg` with the
offending token's position and exits (spec section 7).
-/

/-- The two-token lookahead window of `tokenstream`. -/
structure TokenStream where
  curr : Token
  next : Token
deriving Repr, DecidableEq

/-- Modelled from the spec: `tokenstream::valid()` — the current token
exists. -/
def TokenStream.validTS (ts : TokenStream) : Bool :=
  ts.curr.type ≠ .eof

/-- Modelled from the spec: `to_string(token_type)` (declared in
`lexer.hpp`, not under `src/`), printing each token kind under the name
the spec's token list uses. -/
def tokenTypeStr : TokenType → String
  | .kw_assert => "assert" | .kw_bool => "bool" | .kw_break => "break"
  | .kw_char => "char" | .kw_continue => "continue" | .kw_default => "default"
  | .kw_delete => "delete" | .kw_else => "else" | .kw_f64 => "f64"
  | .kw_false => "false" | .kw_for => "for" | .kw_function => "fn"
  | .kw_i32 => "i32" | .kw_i64 => "i64" | .kw_if => "if"
  | .kw_import => "import" | .kw_in => "in" | .kw_loop => "loop"
  | .kw_new => "new" | .kw_null => "null" | .kw_return => "return"
  | .kw_sizeof => "sizeof" | .kw_struct => "struct" | .kw_true => "true"
  | .kw_typeof => "typeof" | .kw_u64 => "u64" | .kw_while => "while"
  | .left_paren => "(" | .right_paren => ")" | .left_brace => "\x7b"
  | .right_brace => "\x7d" | .semicolon => ";" | .comma => ","
  | .dot => "." | .minus => "-" | .plus => "+" | .slash => "/"
  | .star => "*" | .bang_equal => "!=" | .bang => "!"
  | .equal_equal => "==" | .equal => "=" | .less_equal => "<="
  | .less => "<" | .greater_equal => ">=" | .greater => ">"
  | .ampersand => "&" | .ampersand_ampersand => "&&"
  | .colon_equal => ":=" | .colon => ":" | .left_bracket => "["
  | .right_bracket => "]" | .percent => "%" | .bar_bar => "||"
  | .bar => "|" | .arrow => "->" | .identifier => "identifier"
  | .int32 => "int32" | .int64 => "int64" | .uint64 => "uint64"
  | .float64 => "float64" | .character => "character"
  | .string => "string" | .eof => "eof"

/-- A piece of a `std::format` format string: literal text or a `\x7b\x7d`
replacement field. -/
inductive FmtPiece where
  | lit (s : String)
  | hole
deriving Repr, DecidableEq

/-- `std::format` with automatic argument indexing: each replacement
field consumes the next argument in order; surplus arguments are legal
and ignored. -/
def formatPieces : List FmtPiece → List String → String
  | [], _ => ""
  | .lit s :: ps, args => s ++ formatPieces ps args
  | .hole :: ps, [] => formatPieces ps []
  | .hole :: ps, a :: args => a ++ formatPieces ps args

/-- Modelled from the spec: `token::error` prefixes the formatted message
with the offending token's position. -/
def tokenErrorMsg (t : Token) (msg : String) : String :=
  "[ERROR] (" ++ toString t.line ++ ":" ++ toString t.col ++ ") " ++ msg

/-- Outcome of `tokenstream::consume_u64`: one of the two fatal
print-and-exit paths, or the parsed value.  (The stream advance performed
by `consume()` on the success path is not inspected by any claim and is
omitted.) -/
inductive ConsumeU64Result where
  | fatalEof (msg : String)
  | fatalType (msg : String)
  | okValue (value : Nat)
deriving Repr, DecidableEq

/-- Modelled from the C++ standard library: `std::stoull` on the token's
text — the leading run of decimal digits as a number (overflow, which
throws in C++, is not reachable from the claims). -/
def stoullModel (l : List Char) : Nat :=
  (l.takeWhile isDigit).foldl (fun a c => a * 10 + (c.toNat - 48)) 0

/-- `tokenstream::consume_u64` (`lexer.cpp` lines 332-342).  The type
mismatch branch calls
`curr().error("expected u64, got '\x7b\x7d'\n", token_type::uint64, curr().type)`:
the format string has a single replacement field but two arguments, so
the field consumes `token_type::uint64` and `curr().type` is a legal,
ignored surplus argument. -/
def consumeU64 (ts : TokenStream) : ConsumeU64Result :=
  if ts.validTS = false then
    .fatalEof "[ERROR] (EOF) expected a uint\n"
  else if ts.curr.type ≠ .uint64 then
    .fatalType (tokenErrorMsg ts.curr (formatPieces
      [.lit "expected u64, got \x27", .hole, .lit "\x27\n"]
      [tokenTypeStr .uint64, tokenTypeStr ts.curr.type]))
  else
    .okValue (stoullModel ts.curr.text)

/-!
Byte-encoding and stack-manipulation lemmas.
-/

theorem length_toBytesLE (w v : Nat) : (toBytesLE w v).length = w := by
  induction w generalizing v with
  | zero => rfl
  | succ w ih => simp [toBytesLE, ih]

theorem fromBytesLE_toBytesLE (w v : Nat) :
    fromBytesLE (toBytesLE w v) = v % 256 ^ w := by
  induction w generalizing v with
  | zero => simp [toBytesLE, fromBytesLE, Nat.mod_one]
  | succ w ih =>
      have hpow : (256 : Nat) ^ (w + 1) = 256 * 256 ^ w := by ring
      rw [toBytesLE, fromBytesLE, ih, hpow, Nat.mod_mul]

theorem fromBytes_toBytes8 (v : Nat) :
    fromBytesLE (toBytesLE 8 v) = v % 2 ^ 64 := by
  rw [fromBytesLE_toBytesLE]
  norm_num

theorem popValue_append (n : Nat) (l bs : List Nat) (h : bs.length = n) :
    popValue n (l ++ bs) = (fromBytesLE bs, l) := by
  unfold popValue
  have hlen : (l ++ bs).length - n = l.length := by
    simp [List.length_append, h]
  rw [hlen]
  rw [List.drop_left, List.take_left]

theorem popValue_append8 (l : List Nat) (v : Nat) :
    popValue 8 (l ++ toBytesLE 8 v) = (v % 2 ^ 64, l) := by
  rw [popValue_append 8 l _ (length_toBytesLE 8 v), fromBytes_toBytes8]

theorem lor_top_eq_add {x : Nat} (h : x < 2 ^ 63) : x ||| 2 ^ 63 = 2 ^ 63 + x := by
  apply Nat.eq_of_testBit_eq
  intro i
  rw [Nat.testBit_lor]
  rcases lt_trichotomy i 63 with hi | hi | hi
  · rw [Nat.testBit_two_pow_add_gt hi, Nat.testBit_two_pow_of_ne (by omega)]
    simp
  · subst hi
    rw [Nat.testBit_two_pow_add_eq, Nat.testBit_eq_false_of_lt h, Nat.testBit_two_pow_self]
    simp
  · have h1 : x.testBit i = false := by
      apply Nat.testBit_eq_false_of_lt
      calc x < 2 ^ 63 := h
        _ ≤ 2 ^ i := Nat.pow_le_pow_right (by norm_num) (by omega)
    have h2 : (2 ^ 63 + x).testBit i = false := by
      apply Nat.testBit_eq_false_of_lt
      have h64 : (2 : Nat) ^ 64 ≤ 2 ^ i := Nat.pow_le_pow_right (by norm_num) (by omega)
      have : (2 : Nat) ^ 63 + 2 ^ 63 = 2 ^ 64 := by norm_num
      omega
    rw [h1, h2, Nat.testBit_two_pow_of_ne (by omega)]
    rfl

theorem getD_range_eq (bs : List Nat) :
    (List.range bs.length).map (fun i => bs.getD i 0) = bs := by
  induction bs with
  | nil => simp
  | cons b bs ih =>
      rw [List.length_cons, List.range_succ_eq_map, List.map_cons, List.map_map]
      have hcongr : (List.range bs.length).map ((fun i => (b :: bs).getD i 0) ∘ Nat.succ)
          = (List.range bs.length).map (fun i => bs.getD i 0) := by
        apply List.map_congr_left
        intro i _
        simp [List.getD_cons_succ]
      rw [hcongr, ih]
      simp

theorem heapWrite_read_back (h : Nat → Nat) (p : Nat) (bs : List Nat) :
    heapBytes (heapWrite h p bs) p bs.length = bs := by
  unfold heapBytes
  have : ∀ i ∈ List.range bs.length, heapWrite h p bs (p + i) = bs.getD i 0 := by
    intro i hi
    rw [List.mem_range] at hi
    unfold heapWrite
    rw [if_pos (by omega)]
    congr 1
    omega
  rw [List.map_congr_left this, getD_range_eq]

/-!
Claim C9.
-/

/-- C9: for each of `op_i32_div`, `op_i64_div` and `op_u64_div`, `apply_op`
pops the two operands and applies the division via `binary_op`
unconditionally: there is no zero-divisor guard and no error branch, so
the step always produces a successor context and the runtime-error
(print-and-exit) path is never taken — for every context, including any
whose top 8 (resp. 4) bytes decode to a zero divisor. -/
theorem div_ops_never_error (ctx : RuntimeContext) :
    applyOp ctx .op_i32_div = .ok (binaryOpI32 Int.tdiv ctx) ∧
    applyOp ctx .op_i64_div = .ok (binaryOpI64 Int.tdiv ctx) ∧
    applyOp ctx .op_u64_div = .ok (binaryOpU64 (· / ·) ctx) ∧
    (applyOp ctx .op_i32_div).isOk = true ∧
    (applyOp ctx .op_i64_div).isOk = true ∧
    (applyOp ctx .op_u64_div).isOk = true :=
  ⟨rfl, rfl, rfl, rfl, rfl, rfl⟩

/-!
Claim C10.
-/

/-- C10: `run_program` dispatches ops only while
`prog_ptr < program.size()`.  First conjunct: from any context whose
`prog_ptr` is at or past the end, the loop halts normally and the
heap-leak check runs (its value is reported); no error arises from a
program counter past the end.  Second conjunct: an executed op (a jump,
return, …) that sets `prog_ptr` to an index at or beyond the program
length makes the loop halt normally on the next iteration, again running
the leak check. -/
theorem run_loop_halts_past_end (program : List Op) (fuel : Nat) (ctx : RuntimeContext) :
    (program.length ≤ ctx.prog_ptr →
      runLoop program (fuel + 1) ctx = .halted ctx.allocator.bytesAllocated) ∧
    (∀ h : ctx.prog_ptr < program.length, ∀ c : RuntimeContext,
      applyOp ctx (program.get ⟨ctx.prog_ptr, h⟩) = .ok c →
      program.length ≤ c.prog_ptr →
      runLoop program (fuel + 2) ctx = .halted c.allocator.bytesAllocated) := by
  constructor
  · intro h
    unfold runLoop
    rw [dif_neg (by omega)]
  · intro h c hstep hpast
    show runLoop program (fuel + 1 + 1) ctx = _
    unfold runLoop
    rw [dif_pos h, hstep]
    unfold runLoop
    rw [dif_neg (by omega)]

/-- Witness for C10: running `[op_jump 5]` from `prog_ptr = 9` halts at
once with a clean leak check, and running it from the start executes the
jump (which moves `prog_ptr` to `5`, past the end) and then halts
normally. -/
theorem run_loop_halts_past_end_witness :
    runLoop [Op.op_jump 5] 2 { initContext with prog_ptr := 9 } = .halted 0 ∧
    runLoop [Op.op_jump 5] 3 initContext = .halted 0 :=
  ⟨(run_loop_halts_past_end [Op.op_jump 5] 1 { initContext with prog_ptr := 9 }).1 (by decide),
   (run_loop_halts_past_end [Op.op_jump 5] 1 initContext).2 (by decide)
     { initContext with prog_ptr := 5 } rfl (by decide)⟩

/-!
Claim C2.  The concrete context below has a 24-byte stack: 8 bytes of
data, then the 8-byte value `42` to be saved, then the popped pointer
`q = 8` (untagged, stack region).  After the pop the stack has 16 bytes
and `q + 8 = 16` equals the stack size — the boundary case.
-/

/-- The boundary-case context for `op_save`. -/
def ctxSaveBoundary : RuntimeContext :=
  { initContext with stack := toBytesLE 8 7 ++ toBytesLE 8 42 ++ toBytesLE 8 8 }

/-- A context holding a rodata-tagged pointer (bit 62 set, bit 63 clear)
on top for `op_save`. -/
def ctxSaveRom : RuntimeContext :=
  { initContext with stack := toBytesLE 8 42 ++ toBytesLE 8 (2 ^ 62) }

/-- C2 (code bug, evaluation at the failing input): in the boundary case
`q + n = stack.size()` the strict guard `ptr + op.size < ctx.stack.size()`
skips both the copy and the truncation, so the stack keeps its 16 bytes —
the claim (and spec sections 4.5 and 9) require it to shrink to 8.  A save
through a rodata-tagged pointer does fail fatally (it falls into the stack
branch, whose bounds assert fires). -/
theorem save_boundary_case_eval :
    (applyOp ctxSaveBoundary (.op_save 8)).isOk = true ∧
    (applyOp ctxSaveBoundary (.op_save 8)).stackOf = toBytesLE 8 7 ++ toBytesLE 8 42 ∧
    (applyOp ctxSaveBoundary (.op_save 8)).stackOf.length = 16 ∧
    ¬ (applyOp ctxSaveBoundary (.op_save 8)).stackOf.length = 8 ∧
    (applyOp ctxSaveRom (.op_save 8)).isOk = false := by
  decide

/-!
Claim C5.  `op_return(24)` with `base_ptr = 0` on a 40-byte stack copies
source range `[16, 40)` onto destination range `[0, 24)`: the ranges
overlap in `[16, 24)`.  The C++ code performs this copy with
`std::memcpy`, whose behaviour on overlapping ranges is undefined; a
conforming implementation that copies backwards clobbers the overlap, so
the "bytes written equal the original source bytes" property of the claim
is not guaranteed by the code.
-/

/-- A 40-byte stack with distinct byte values. -/
def overlapStack : List Nat := (List.range 40).map (· + 1)

/-- C5 (code bug, evaluation at the failing input): the overlap condition
`base_ptr + n > stack.size − n` holds for `op_return(24)` at `base_ptr = 0`
on `overlapStack`; the backward-copying realization of `memcpy` differs
there from the memmove splice, and the embedding (which adopts the
spec-mandated memmove reading) returns the splice. -/
theorem memcpy_overlap_clobbers_eval :
    0 + 24 > overlapStack.length - 24 ∧
    memcpyBackward overlapStack 0 (overlapStack.length - 24) 24
      ≠ spliceCopy overlapStack 0 (overlapStack.length - 24) 24 ∧
    (applyOp { initContext with stack := overlapStack } (.op_return 24)).stackOf
      = (spliceCopy overlapStack 0 16 24).take 24 := by
  decide

/-!
Claim C1.
-/

theorem drop_getD (l : List Nat) (k i : Nat) :
    (l.drop k).getD i 0 = l.getD (k + i) 0 := by
  rw [List.getD_eq_getElem?_getD, List.getElem?_drop, List.getD_eq_getElem?_getD]

theorem load_fold_in_range (n : Nat) (l : List Nat) (q : Nat) (h : q + n ≤ l.length) :
    (List.range n).foldl (fun st i => st ++ [st.getD (q + i) 0]) l
      = l ++ (l.drop q).take n := by
  induction n with
  | zero => simp
  | succ n ih =>
      rw [List.range_succ, List.foldl_concat, ih (by omega)]
      have hq : q + n < l.length := by omega
      have hget : (l ++ (l.drop q).take n).getD (q + n) 0 = l.getD (q + n) 0 :=
        List.getD_append _ _ _ _ hq
      rw [hget, List.append_assoc]
      congr 1
      rw [List.take_succ]
      have hsome : (l.drop q)[n]? = some (l.getD (q + n) 0) := by
        rw [List.getElem?_drop, List.getElem?_eq_getElem hq]
        rw [List.getD_eq_getElem?_getD, List.getElem?_eq_getElem hq]
        rfl
      rw [hsome]
      rfl

theorem heapWrite_getD (h : Nat → Nat) (p : Nat) (bs : List Nat) (i : Nat)
    (hi : i < bs.length) :
    heapWrite h p bs (p + i) = bs.getD i 0 := by
  unfold heapWrite
  rw [if_pos (by omega)]
  congr 1
  omega

theorem lastN_length (l : List Nat) (n : Nat) (h : n ≤ l.length) :
    (lastN n l).length = n := by
  unfold lastN
  rw [List.length_drop]
  omega

/-- C1 (amended): pointer tagging as `runtime.cpp` implements it.
`push_local_addr` pushes `base_ptr + offset` with neither bit 63 (heap)
nor bit 62 set (for in-range addresses); `allocate` pushes a pointer with
the heap bit set and bit 62 clear; but `push_global_addr` pushes
`op.position` completely unchanged — it ORs in no rom bit — and
`load`/`save` route on bit 63 alone: heap when set, otherwise the stack.
There is no rodata region in `runtime_context` and no third routing
target. -/
theorem pointer_tagging_amended (ctx : RuntimeContext) (off pos n : Nat)
    (hlocal : ctx.base_ptr + off < 2 ^ 62)
    (hheap : ctx.allocator.nextOffset + 8 < 2 ^ 62) :
    ((applyOp ctx (.op_push_local_addr off)).stackOf
        = ctx.stack ++ toBytesLE 8 (ctx.base_ptr + off)
      ∧ (ctx.base_ptr + off).testBit 63 = false
      ∧ (ctx.base_ptr + off).testBit 62 = false) ∧
    ((applyOp ctx (.op_push_global_addr pos)).stackOf = ctx.stack ++ toBytesLE 8 pos) ∧
    ((applyOp ctx (.op_allocate n)).stackOf
        = (popValue 8 ctx.stack).2 ++ toBytesLE 8 (2 ^ 63 + (ctx.allocator.nextOffset + 8))
      ∧ (2 ^ 63 + (ctx.allocator.nextOffset + 8)).testBit 63 = true
      ∧ (2 ^ 63 + (ctx.allocator.nextOffset + 8)).testBit 62 = false) ∧
    (∀ q s1, popValue 8 ctx.stack = (q, s1) →
      (q.testBit 63 = true →
        (applyOp ctx (.op_load n)).stackOf = s1 ++ heapBytes ctx.heap (q % 2 ^ 63) n) ∧
      (q.testBit 63 = false → q + n ≤ s1.length →
        (applyOp ctx (.op_load n)).stackOf = s1 ++ (s1.drop q).take n)) ∧
    (∀ q s1, popValue 8 ctx.stack = (q, s1) →
      (q.testBit 63 = true → n ≤ s1.length →
        (applyOp ctx (.op_save n)).stackOf = s1.take (s1.length - n) ∧
        (∀ i, i < n →
          (applyOp ctx (.op_save n)).heapAt (q % 2 ^ 63 + i)
            = s1.getD (s1.length - n + i) 0)) ∧
      (q.testBit 63 = false → q + n < s1.length →
        (applyOp ctx (.op_save n)).stackOf
            = (spliceCopy s1 q (s1.length - n) n).take (s1.length - n) ∧
        (applyOp ctx (.op_save n)).stackOf.length = s1.length - n)) := by
  have hb62 : ∀ x : Nat, x < 2 ^ 62 → x.testBit 62 = false := fun x hx =>
    Nat.testBit_eq_false_of_lt hx
  have hb63 : ∀ x : Nat, x < 2 ^ 63 → x.testBit 63 = false := fun x hx =>
    Nat.testBit_eq_false_of_lt hx
  refine ⟨⟨rfl, ?_, ?_⟩, rfl, ⟨?_, ?_, ?_⟩, ?_, ?_⟩
  · exact hb63 _ (lt_trans hlocal (by norm_num))
  · exact hb62 _ hlocal
  · -- allocate pushes ((nextOffset + 8) % 2^64) ||| 2^63 = 2^63 + (nextOffset + 8)
    show StepResult.stackOf _ = _
    simp only [applyOp, Allocator.allocate, StepResult.stackOf]
    congr 2
    have h1 : (ctx.allocator.nextOffset + 8) % 2 ^ 64 = ctx.allocator.nextOffset + 8 := by
      have : ctx.allocator.nextOffset + 8 < 2 ^ 64 := lt_trans hheap (by norm_num)
      omega
    rw [h1, lor_top_eq_add (lt_trans hheap (by norm_num))]
  · rw [Nat.testBit_two_pow_add_eq, hb63 _ (lt_trans hheap (by norm_num))]
    rfl
  · rw [Nat.testBit_two_pow_add_gt (by omega), hb62 _ hheap]
  · intro q s1 hpop
    constructor
    · intro htop
      simp only [applyOp, hpop, htop, if_true, StepResult.stackOf]
    · intro htop hle
      simp only [applyOp, hpop, htop, Bool.false_eq_true, if_false, StepResult.stackOf]
      exact load_fold_in_range n s1 q hle
  · intro q s1 hpop
    constructor
    · intro htop hle
      constructor
      · simp only [applyOp, hpop, htop, if_true, StepResult.stackOf]
      · intro i hi
        simp only [applyOp, hpop, htop, if_true, StepResult.heapAt]
        rw [heapWrite_getD _ _ _ _ (by rw [lastN_length _ _ hle]; exact hi)]
        unfold lastN
        exact drop_getD s1 (s1.length - n) i
    · intro htop hlt
      have hcond : applyOp ctx (.op_save n)
          = .ok { ctx with stack := (spliceCopy s1 q (s1.length - n) n).take (s1.length - n)
                           prog_ptr := ctx.prog_ptr + 1 } := by
        simp only [applyOp, hpop, htop, Bool.false_eq_true, if_false]
        rw [if_pos (by omega), if_pos hlt]
      refine ⟨by rw [hcond]; rfl, ?_⟩
      rw [hcond]
      show ((spliceCopy s1 q (s1.length - n) n).take (s1.length - n)).length = s1.length - n
      unfold spliceCopy
      simp only [List.length_take, List.length_append, List.length_drop]
      have : n ≤ s1.length := by omega
      omega

/-- C1 counterexample: the pointer pushed by `push_global_addr 5` is the
raw value `5`: bit 62 (the rom bit) is not set, contradicting the claim
that every pointer pushed by `push_global_addr` has the rom bit set. -/
theorem pointer_tagging_counterexample :
    (applyOp initContext (.op_push_global_addr 5)).stackOf = toBytesLE 8 5 ∧
    fromBytesLE (toBytesLE 8 5) = 5 ∧
    Nat.testBit 5 62 = false := by
  decide

/-- A small concrete context for the C1 witness. -/
def ctxTagWitness : RuntimeContext :=
  { initContext with stack := toBytesLE 8 3, base_ptr := 4 }

/-- Witness for C1 at a concrete context: both hypotheses hold and the
push-op conclusions follow by applying the theorem. -/
theorem pointer_tagging_witness :
    (ctxTagWitness.base_ptr + 3 < 2 ^ 62) ∧
    (ctxTagWitness.allocator.nextOffset + 8 < 2 ^ 62) ∧
    ((applyOp ctxTagWitness (.op_push_local_addr 3)).stackOf
        = ctxTagWitness.stack ++ toBytesLE 8 (ctxTagWitness.base_ptr + 3)
      ∧ (ctxTagWitness.base_ptr + 3).testBit 63 = false
      ∧ (ctxTagWitness.base_ptr + 3).testBit 62 = false) ∧
    ((applyOp ctxTagWitness (.op_push_global_addr 7)).stackOf
        = ctxTagWitness.stack ++ toBytesLE 8 7) :=
  ⟨by decide, by decide,
   (pointer_tagging_amended ctxTagWitness 3 7 8 (by decide) (by decide)).1,
   (pointer_tagging_amended ctxTagWitness 3 7 8 (by decide) (by decide)).2.1⟩

/-!
Claim C3.
-/

theorem writeBytes_pair (l b1 b2 : List Nat) (B : Nat)
    (hb1 : b1.length = 8) (hb2 : b2.length = 8) (h : B + 16 ≤ l.length) :
    writeBytes (writeBytes l B b1) (B + 8) b2
      = l.take B ++ b1 ++ b2 ++ l.drop (B + 16) := by
  have hlb : (l.take B).length = B := by rw [List.length_take]; omega
  have hl1 : (l.take B ++ b1).length = B + 8 := by
    rw [List.length_append, hlb, hb1]
  have htake : (l.take B ++ b1 ++ l.drop (B + 8)).take (B + 8) = l.take B ++ b1 := by
    rw [List.take_append_eq_append_take, hl1, Nat.sub_self, List.take_zero,
      List.append_nil, List.take_of_length_le (le_of_eq hl1)]
  have hdrop : (l.take B ++ b1 ++ l.drop (B + 8)).drop (B + 8 + 8) = l.drop (B + 16) := by
    rw [List.drop_append_eq_append_drop, hl1,
      List.drop_eq_nil_of_le (by omega : (l.take B ++ b1).length ≤ B + 8 + 8),
      List.nil_append]
    have h8 : B + 8 + 8 - (B + 8) = 8 := by omega
    rw [h8, List.drop_drop]
  unfold writeBytes
  rw [hb1, hb2, htake, hdrop]

theorem take16_first (l b1 b2 : List Nat) (B : Nat) (hb1 : b1.length = 8)
    (hsv : (l.drop B).take 16 = b1 ++ b2) :
    (l.drop B).take 8 = b1 := by
  have h8 : (l.drop B).take 8 = ((l.drop B).take 16).take 8 := by
    rw [List.take_take]
    norm_num
  rw [h8, hsv, List.take_append_eq_append_take,
    List.take_of_length_le (le_of_eq hb1), hb1, Nat.sub_self, List.take_zero,
    List.append_nil]

theorem take16_second (l b1 b2 : List Nat) (B : Nat) (hb1 : b1.length = 8)
    (hsv : (l.drop B).take 16 = b1 ++ b2) :
    (l.drop (B + 8)).take 8 = b2 := by
  have hdd : l.drop (B + 8) = (l.drop B).drop 8 := by
    rw [List.drop_drop]
  rw [hdd]
  have hdt : ((l.drop B).drop 8).take 8 = ((l.drop B).take 16).drop 8 := by
    rw [List.drop_take]
  rw [hdt, hsv, ← hb1, List.drop_left]

theorem return_stack_shape (l : List Nat) (B n : Nat) (h : B + n ≤ l.length) :
    resizeList (spliceCopy l B (l.length - n) n) (B + n) = l.take B ++ lastN n l := by
  have hn : n ≤ l.length := by omega
  have hlast : (l.drop (l.length - n)).take n = l.drop (l.length - n) := by
    apply List.take_of_length_le
    rw [List.length_drop]
    omega
  have hlenB : (l.take B).length = B := by rw [List.length_take]; omega
  have hl1 : (l.take B ++ l.drop (l.length - n)).length = B + n := by
    rw [List.length_append, hlenB, List.length_drop]
    omega
  have hsplice : spliceCopy l B (l.length - n) n
      = l.take B ++ l.drop (l.length - n) ++ l.drop (B + n) := by
    unfold spliceCopy
    rw [hlast]
  have hsplen : (spliceCopy l B (l.length - n) n).length = l.length := by
    rw [hsplice]
    simp only [List.length_append, hlenB, List.length_drop]
    omega
  unfold resizeList
  rw [if_pos (by omega), hsplice, List.take_append_eq_append_take, hl1,
    Nat.sub_self, List.take_zero, List.append_nil,
    List.take_of_length_le (le_of_eq hl1)]
  rfl

/-- C3: call/return symmetry.  First conjunct: executing
`function_call(target, args_size)` on a stack of size `pre_call_size`
saves the caller's `base_ptr` and the return address `prog_ptr + 1`
in-band at the new frame base `pre_call_size − args_size`, sets
`base_ptr` to that base and jumps, leaving the stack size unchanged.
Second conjunct: the matching `return(n)` — executed from any callee
state whose `base_ptr` is still the frame base and whose two saved
8-byte slots are intact — restores `base_ptr` to its pre-call value,
sets `prog_ptr` to the op index immediately after the call, and leaves
the stack at size `pre_call_size − args_size + n`, holding the `n`
result bytes starting at the callee's `base_ptr`. -/
theorem call_return_symmetry (s : RuntimeContext) (target args n : Nat)
    (h16 : 16 ≤ args) (hargs : args ≤ s.stack.length)
    (hbase : s.base_ptr < 2 ^ 64) (hprog : s.prog_ptr + 1 < 2 ^ 64) :
    (∃ c1, applyOp s (.op_function_call target args) = .ok c1 ∧
      c1.base_ptr = s.stack.length - args ∧
      c1.prog_ptr = target ∧
      c1.stack = s.stack.take (s.stack.length - args)
          ++ toBytesLE 8 s.base_ptr ++ toBytesLE 8 (s.prog_ptr + 1)
          ++ s.stack.drop (s.stack.length - args + 16) ∧
      c1.stack.length = s.stack.length) ∧
    (∀ s2 : RuntimeContext,
      s2.base_ptr = s.stack.length - args →
      (s2.stack.drop (s.stack.length - args)).take 16
          = toBytesLE 8 s.base_ptr ++ toBytesLE 8 (s.prog_ptr + 1) →
      s.stack.length - args + n ≤ s2.stack.length →
      ∃ c2, applyOp s2 (.op_return n) = .ok c2 ∧
        c2.base_ptr = s.base_ptr ∧
        c2.prog_ptr = s.prog_ptr + 1 ∧
        c2.stack = s2.stack.take (s.stack.length - args) ++ lastN n s2.stack ∧
        c2.stack.length = s.stack.length - args + n) := by
  have hB16 : s.stack.length - args + 16 ≤ s.stack.length := by omega
  constructor
  · have happly : applyOp s (.op_function_call target args) = .ok
        { stack := writeBytes
            (writeBytes s.stack (s.stack.length - args) (toBytesLE 8 s.base_ptr))
            (s.stack.length - args + 8) (toBytesLE 8 (s.prog_ptr + 1))
          heap := s.heap
          allocator := s.allocator
          base_ptr := s.stack.length - args
          prog_ptr := target } := rfl
    have hpair := writeBytes_pair s.stack (toBytesLE 8 s.base_ptr)
      (toBytesLE 8 (s.prog_ptr + 1)) (s.stack.length - args)
      (length_toBytesLE 8 s.base_ptr) (length_toBytesLE 8 (s.prog_ptr + 1)) hB16
    refine ⟨_, happly, rfl, rfl, hpair, ?_⟩
    show (writeBytes _ _ _).length = _
    rw [hpair]
    simp only [List.length_append, List.length_take, List.length_drop,
      length_toBytesLE]
    omega
  · intro s2 h2b hsv hlen
    have hs2len : s.stack.length - args + 16 ≤ s2.stack.length := by
      have hl := congrArg List.length hsv
      simp only [List.length_take, List.length_drop, List.length_append,
        length_toBytesLE] at hl
      omega
    have happly : applyOp s2 (.op_return n) = .ok
        { stack := resizeList
            (spliceCopy s2.stack s2.base_ptr (s2.stack.length - n) n)
            (s2.base_ptr + n)
          heap := s2.heap
          allocator := s2.allocator
          base_ptr := readValue s2.stack s2.base_ptr
          prog_ptr := readValue s2.stack (s2.base_ptr + 8) } := rfl
    refine ⟨_, happly, ?_, ?_, ?_, ?_⟩
    · show readValue s2.stack s2.base_ptr = s.base_ptr
      unfold readValue
      rw [h2b, take16_first s2.stack _ _ _ (length_toBytesLE 8 s.base_ptr) hsv,
        fromBytes_toBytes8]
      omega
    · show readValue s2.stack (s2.base_ptr + 8) = s.prog_ptr + 1
      unfold readValue
      rw [h2b, take16_second s2.stack _ _ _ (length_toBytesLE 8 s.base_ptr) hsv,
        fromBytes_toBytes8]
      omega
    · show resizeList _ _ = _
      rw [h2b]
      exact return_stack_shape s2.stack (s.stack.length - args) n hlen
    · show (resizeList _ _).length = _
      rw [h2b, return_stack_shape s2.stack (s.stack.length - args) n hlen]
      simp only [List.length_append, List.length_take]
      unfold lastN
      rw [List.length_drop]
      omega

/-- Witness context for C3: a 24-byte stack, base pointer 3, program
counter 7. -/
def ctxCallWitness : RuntimeContext :=
  { initContext with stack := List.replicate 24 9, base_ptr := 3, prog_ptr := 7 }

/-- The callee state for the C3 witness: the post-call context with 8
result bytes pushed on top. -/
def ctxCalleeWitness : RuntimeContext :=
  { initContext with
    stack := List.replicate 8 9 ++ toBytesLE 8 3 ++ toBytesLE 8 8 ++ List.replicate 8 5
    base_ptr := 8
    prog_ptr := 99 }

/-- Witness for C3 at concrete states: all hypotheses of the theorem (and
of its second conjunct) hold, and the call and return conclusions follow
by applying the theorem. -/
theorem call_return_symmetry_witness :
    (16 ≤ 16) ∧ (16 ≤ ctxCallWitness.stack.length) ∧
    (ctxCallWitness.base_ptr < 2 ^ 64) ∧ (ctxCallWitness.prog_ptr + 1 < 2 ^ 64) ∧
    (ctxCalleeWitness.base_ptr = ctxCallWitness.stack.length - 16) ∧
    ((ctxCalleeWitness.stack.drop (ctxCallWitness.stack.length - 16)).take 16
        = toBytesLE 8 ctxCallWitness.base_ptr ++ toBytesLE 8 (ctxCallWitness.prog_ptr + 1)) ∧
    (ctxCallWitness.stack.length - 16 + 8 ≤ ctxCalleeWitness.stack.length) ∧
    (∃ c2, applyOp ctxCalleeWitness (.op_return 8) = .ok c2 ∧
      c2.base_ptr = ctxCallWitness.base_ptr ∧
      c2.prog_ptr = ctxCallWitness.prog_ptr + 1 ∧
      c2.stack = ctxCalleeWitness.stack.take (ctxCallWitness.stack.length - 16)
          ++ lastN 8 ctxCalleeWitness.stack ∧
      c2.stack.length = ctxCallWitness.stack.length - 16 + 8) :=
  ⟨by decide, by decide, by decide, by decide, by decide, by decide, by decide,
   (call_return_symmetry ctxCallWitness 99 16 8 (by decide) (by decide)
      (by decide) (by decide)).2 ctxCalleeWitness (by decide) (by decide) (by decide)⟩

/-!
Claim C4.
-/

/-- Run a straight-line op sequence, stopping at the first fatal step. -/
def execOps (ctx : RuntimeContext) : List Op → StepResult
  | [] => .ok ctx
  | op :: ops =>
      match applyOp ctx op with
      | .ok c => execOps c ops
      | .fatal m => .fatal m

/-- One matching `allocate`/`deallocate` pair: push the count, allocate
`count` elements of size `s`, then immediately deallocate the pointer the
allocation pushed. -/
def allocDeallocRound (cnt s : Nat) : List Op :=
  [.op_load_bytes (toBytesLE 8 cnt), .op_allocate s, .op_deallocate]

/-- Run a list of matching allocate/deallocate pairs. -/
def execRounds (ctx : RuntimeContext) : List (Nat × Nat) → StepResult
  | [] => .ok ctx
  | (cnt, s) :: rs =>
      match execOps ctx (allocDeallocRound cnt s) with
      | .ok c => execRounds c rs
      | .fatal m => .fatal m

/-- The number of bytes one `allocate` obtains for a popped count
`cnt` and element size `s` (u64 arithmetic). -/
def roundBytes (r : Nat × Nat) : Nat :=
  ((r.1 % 2 ^ 64) * r.2 + 8) % 2 ^ 64

theorem execOps_cons (ctx c : RuntimeContext) (op : Op) (ops : List Op)
    (h : applyOp ctx op = .ok c) : execOps ctx (op :: ops) = execOps c ops := by
  simp only [execOps, h]

theorem alloc_dealloc_round (ctx : RuntimeContext) (cnt s : Nat)
    (hoff : ctx.allocator.nextOffset + 8 < 2 ^ 63) :
    ∃ c, execOps ctx (allocDeallocRound cnt s) = .ok c ∧
      c.allocator.bytesAllocated = ctx.allocator.bytesAllocated ∧
      c.allocator.nextOffset = ctx.allocator.nextOffset + roundBytes (cnt, s) ∧
      c.stack = ctx.stack := by
  have hpop1 : popValue 8 (ctx.stack ++ toBytesLE 8 cnt) = (cnt % 2 ^ 64, ctx.stack) :=
    popValue_append8 _ _
  have hmod : (ctx.allocator.nextOffset + 8) % 2 ^ 64 = ctx.allocator.nextOffset + 8 := by
    omega
  have hlor : (ctx.allocator.nextOffset + 8) ||| 2 ^ 63
      = 2 ^ 63 + (ctx.allocator.nextOffset + 8) :=
    lor_top_eq_add (by omega)
  have hpop2 : popValue 8 (ctx.stack
        ++ toBytesLE 8 (2 ^ 63 + (ctx.allocator.nextOffset + 8)))
      = (2 ^ 63 + (ctx.allocator.nextOffset + 8), ctx.stack) := by
    rw [popValue_append8]
    congr 1
    omega
  have htop : (2 ^ 63 + (ctx.allocator.nextOffset + 8)).testBit 63 = true := by
    rw [Nat.testBit_two_pow_add_eq, Nat.testBit_eq_false_of_lt (by omega)]
    rfl
  have hhp : ((2 ^ 63 + (ctx.allocator.nextOffset + 8)) % 2 ^ 63 + 2 ^ 64 - 8) % 2 ^ 64
      = ctx.allocator.nextOffset := by
    omega
  have hread : fromBytesLE (heapBytes
        (heapWrite ctx.heap ctx.allocator.nextOffset (toBytesLE 8 ((cnt % 2 ^ 64) * s)))
        ctx.allocator.nextOffset 8)
      = ((cnt % 2 ^ 64) * s) % 2 ^ 64 := by
    have hrb := heapWrite_read_back ctx.heap ctx.allocator.nextOffset
      (toBytesLE 8 ((cnt % 2 ^ 64) * s))
    rw [length_toBytesLE] at hrb
    rw [hrb, fromBytes_toBytes8]
  have hstep1 : applyOp ctx (.op_load_bytes (toBytesLE 8 cnt)) = .ok
      { ctx with stack := ctx.stack ++ toBytesLE 8 cnt
                 prog_ptr := ctx.prog_ptr + 1 } := rfl
  have hstep2 : applyOp
      { ctx with stack := ctx.stack ++ toBytesLE 8 cnt, prog_ptr := ctx.prog_ptr + 1 }
      (.op_allocate s) = .ok
      { stack := ctx.stack ++ toBytesLE 8 (2 ^ 63 + (ctx.allocator.nextOffset + 8))
        heap := heapWrite ctx.heap ctx.allocator.nextOffset
          (toBytesLE 8 ((cnt % 2 ^ 64) * s))
        allocator := ⟨ctx.allocator.bytesAllocated + ((cnt % 2 ^ 64) * s + 8) % 2 ^ 64,
          ctx.allocator.nextOffset + ((cnt % 2 ^ 64) * s + 8) % 2 ^ 64⟩
        base_ptr := ctx.base_ptr
        prog_ptr := ctx.prog_ptr + 1 + 1 } := by
    simp only [applyOp, hpop1, Allocator.allocate, hmod, hlor]
  have hstep3 : applyOp
      { stack := ctx.stack ++ toBytesLE 8 (2 ^ 63 + (ctx.allocator.nextOffset + 8))
        heap := heapWrite ctx.heap ctx.allocator.nextOffset
          (toBytesLE 8 ((cnt % 2 ^ 64) * s))
        allocator := ⟨ctx.allocator.bytesAllocated + ((cnt % 2 ^ 64) * s + 8) % 2 ^ 64,
          ctx.allocator.nextOffset + ((cnt % 2 ^ 64) * s + 8) % 2 ^ 64⟩
        base_ptr := ctx.base_ptr
        prog_ptr := ctx.prog_ptr + 1 + 1 } .op_deallocate = .ok
      { stack := ctx.stack
        heap := heapWrite ctx.heap ctx.allocator.nextOffset
          (toBytesLE 8 ((cnt % 2 ^ 64) * s))
        allocator := ⟨ctx.allocator.bytesAllocated + ((cnt % 2 ^ 64) * s + 8) % 2 ^ 64
            - (((cnt % 2 ^ 64) * s) % 2 ^ 64 + 8) % 2 ^ 64,
          ctx.allocator.nextOffset + ((cnt % 2 ^ 64) * s + 8) % 2 ^ 64⟩
        base_ptr := ctx.base_ptr
        prog_ptr := ctx.prog_ptr + 1 + 1 + 1 } := by
    simp only [applyOp, hpop2, htop, if_true, hhp, hread, Allocator.deallocate]
  have hexec : execOps ctx (allocDeallocRound cnt s) = .ok
      { stack := ctx.stack
        heap := heapWrite ctx.heap ctx.allocator.nextOffset
          (toBytesLE 8 ((cnt % 2 ^ 64) * s))
        allocator := ⟨ctx.allocator.bytesAllocated + ((cnt % 2 ^ 64) * s + 8) % 2 ^ 64
            - (((cnt % 2 ^ 64) * s) % 2 ^ 64 + 8) % 2 ^ 64,
          ctx.allocator.nextOffset + ((cnt % 2 ^ 64) * s + 8) % 2 ^ 64⟩
        base_ptr := ctx.base_ptr
        prog_ptr := ctx.prog_ptr + 1 + 1 + 1 } := by
    unfold allocDeallocRound
    rw [execOps_cons _ _ _ _ hstep1, execOps_cons _ _ _ _ hstep2,
      execOps_cons _ _ _ _ hstep3]
    rfl
  refine ⟨_, hexec, ?_, ?_, rfl⟩
  · show ctx.allocator.bytesAllocated + ((cnt % 2 ^ 64) * s + 8) % 2 ^ 64
        - (((cnt % 2 ^ 64) * s) % 2 ^ 64 + 8) % 2 ^ 64 = ctx.allocator.bytesAllocated
    generalize (cnt % 2 ^ 64) * s = w
    omega
  · rfl

theorem heap_accounting_aux (rounds : List (Nat × Nat)) (ctx : RuntimeContext)
    (h : ctx.allocator.nextOffset + (rounds.map roundBytes).sum + 8 < 2 ^ 63) :
    ∃ c, execRounds ctx rounds = .ok c ∧
      c.allocator.bytesAllocated = ctx.allocator.bytesAllocated ∧
      c.allocator.nextOffset = ctx.allocator.nextOffset + (rounds.map roundBytes).sum ∧
      c.stack = ctx.stack := by
  induction rounds generalizing ctx with
  | nil => exact ⟨ctx, rfl, rfl, by simp, rfl⟩
  | cons r rs ih =>
      obtain ⟨cnt, s⟩ := r
      simp only [List.map_cons, List.sum_cons] at h
      obtain ⟨c1, hexec, hbytes, hoff, hstack⟩ :=
        alloc_dealloc_round ctx cnt s (by omega)
      obtain ⟨c2, hexec2, hbytes2, hoff2, hstack2⟩ := ih c1 (by rw [hoff]; omega)
      refine ⟨c2, ?_, ?_, ?_, ?_⟩
      · unfold execRounds
        rw [hexec]
        exact hexec2
      · rw [hbytes2, hbytes]
      · rw [hoff2, hoff]
        simp only [List.map_cons, List.sum_cons]
        omega
      · rw [hstack2, hstack]

/-- C4: heap accounting round-trip.  Each `allocate(s)` pops a count,
obtains `count·s + 8` bytes from the allocator at some heap offset `h`,
stores `count·s` at `heap[h]` and pushes `(h + 8)` with the heap bit set;
the matching `deallocate` pops that pointer, reads the stored size at
offset `ptr − 8` and returns `size + 8` bytes to the allocator.  Hence
executing any number of matching allocate/deallocate pairs from a context
whose ledger is empty leaves `allocator.bytes_allocated() = 0` (and the
stack as it was). -/
theorem heap_accounting (rounds : List (Nat × Nat)) (ctx : RuntimeContext)
    (h : ctx.allocator.nextOffset + (rounds.map roundBytes).sum + 8 < 2 ^ 63)
    (h0 : ctx.allocator.bytesAllocated = 0) :
    ∃ c, execRounds ctx rounds = .ok c ∧
      c.allocator.bytesAllocated = 0 ∧
      c.stack = ctx.stack := by
  obtain ⟨c, hexec, hbytes, _, hstack⟩ := heap_accounting_aux rounds ctx h
  exact ⟨c, hexec, by rw [hbytes, h0], hstack⟩

/-- Witness for C4: two concrete pairs (3 elements of size 4, then 2 of
size 8) run from the initial context; the hypotheses hold by computation
and the ledger returns to zero by the theorem. -/
theorem heap_accounting_witness :
    (initContext.allocator.nextOffset
        + ([(3, 4), (2, 8)].map roundBytes).sum + 8 < 2 ^ 63) ∧
    (initContext.allocator.bytesAllocated = 0) ∧
    (∃ c, execRounds initContext [(3, 4), (2, 8)] = .ok c ∧
      c.allocator.bytesAllocated = 0 ∧
      c.stack = initContext.stack) :=
  ⟨by decide, by decide,
   heap_accounting [(3, 4), (2, 8)] initContext (by decide) (by decide)⟩

/-!
Claim C8.
-/

/-- C8 (amended): whenever `consume_u64` is called while the current
token exists and its type is not `uint64`, the fatal diagnostic it emits
reads `expected u64, got 'uint64'` — the single replacement field of the
format string consumes the `token_type::uint64` argument, and the actual
current token's type (passed as a surplus argument) never appears in the
message.  In particular the message is the same whatever the current
token's type is. -/
theorem consume_u64_wrong_argument (ts : TokenStream)
    (hv : ts.validTS = true) (ht : ts.curr.type ≠ .uint64) :
    consumeU64 ts = .fatalType
      (tokenErrorMsg ts.curr "expected u64, got \x27uint64\x27\n") := by
  unfold consumeU64
  rw [if_neg (by simp [hv]), if_pos ht]
  congr 1

/-- C8 counterexample: with an `int64` current token the emitted message
still shows `uint64`, not the actual current token's type `int64` — the
diagnostic differs from the one the claim predicts. -/
theorem consume_u64_counterexample :
    consumeU64 ⟨⟨['3'], 1, 1, .int64⟩, ⟨[], 1, 1, .eof⟩⟩
      = .fatalType "[ERROR] (1:1) expected u64, got \x27uint64\x27\n" ∧
    "[ERROR] (1:1) expected u64, got \x27uint64\x27\n"
      ≠ tokenErrorMsg ⟨['3'], 1, 1, .int64⟩
          ("expected u64, got \x27" ++ tokenTypeStr .int64 ++ "\x27\n") := by
  decide

/-- Witness for C8 at a concrete stream: both hypotheses hold and the
message follows by applying the theorem. -/
theorem consume_u64_wrong_argument_witness :
    (TokenStream.validTS ⟨⟨['7'], 2, 5, .kw_if⟩, ⟨[], 2, 7, .eof⟩⟩ = true) ∧
    (TokenType.kw_if ≠ TokenType.uint64) ∧
    consumeU64 ⟨⟨['7'], 2, 5, .kw_if⟩, ⟨[], 2, 7, .eof⟩⟩
      = .fatalType (tokenErrorMsg ⟨['7'], 2, 5, .kw_if⟩
          "expected u64, got \x27uint64\x27\n") :=
  ⟨by decide, by decide,
   consume_u64_wrong_argument ⟨⟨['7'], 2, 5, .kw_if⟩, ⟨[], 2, 7, .eof⟩⟩
     (by decide) (by decide)⟩

/-!
Claim C7.
-/

/-- C7 (amended): for every scanner position where, after whitespace and
comments are skipped, the next character is a letter (`std::isalpha`),
the lexer emits exactly one token spanning the maximal following run of
letters, digits and underscores, classified by the final keyword lookup
`identifier_type` (identifier unless reclassified) — it never reports an
`Unknown token` error for such an input.  A leading underscore, however,
is not dispatched to `make_identifier` (see the counterexample). -/
theorem identifier_start_amended (s0 : LexState) (c : Char) (cs : List Char)
    (hrest : (skipWhitespace s0).rest = c :: cs) (ha : isAlpha c = true) :
    getToken s0 = .tok
      { text := c :: cs.takeWhile isIdentChar
        line := (skipWhitespace s0).line
        col := (skipWhitespace s0).col + 1 + (cs.takeWhile isIdentChar).length
               - (c :: cs.takeWhile isIdentChar).length
        type := identifierType (c :: cs.takeWhile isIdentChar) }
      ⟨cs.dropWhile isIdentChar, (skipWhitespace s0).line,
        (skipWhitespace s0).col + 1 + (cs.takeWhile isIdentChar).length⟩ := by
  unfold getToken getTokenAfterWs
  rw [hrest]
  simp only [ha, if_true, identTok, mkToken]

/-- C7 counterexample: a source whose first character (after no
whitespace) is `_` — a "letter or `_`" start per the claim — makes
`get_token` report the fatal `Unknown token` error instead of an
identifier: `_` fails `isalpha` and falls through the punctuation
switch. -/
theorem identifier_start_counterexample :
    (skipWhitespace ⟨['_', 'x'], 1, 1⟩).rest.headD '\x00' = '_' ∧
    getToken ⟨['_', 'x'], 1, 1⟩ = .err 1 2 "Unknown token" := by
  decide

/-- Witness for C7 at a concrete source `" ab1+"`: the hypotheses hold
and the emitted token follows by applying the theorem. -/
theorem identifier_start_amended_witness :
    ((skipWhitespace ⟨[' ', 'a', 'b', '1', '+'], 1, 1⟩).rest = 'a' :: ['b', '1', '+']) ∧
    (isAlpha 'a' = true) ∧
    getToken ⟨[' ', 'a', 'b', '1', '+'], 1, 1⟩ = .tok
      { text := 'a' :: ['b', '1', '+'].takeWhile isIdentChar
        line := (skipWhitespace ⟨[' ', 'a', 'b', '1', '+'], 1, 1⟩).line
        col := (skipWhitespace ⟨[' ', 'a', 'b', '1', '+'], 1, 1⟩).col + 1
               + (['b', '1', '+'].takeWhile isIdentChar).length
               - ('a' :: ['b', '1', '+'].takeWhile isIdentChar).length
        type := identifierType ('a' :: ['b', '1', '+'].takeWhile isIdentChar) }
      ⟨['b', '1', '+'].dropWhile isIdentChar,
        (skipWhitespace ⟨[' ', 'a', 'b', '1', '+'], 1, 1⟩).line,
        (skipWhitespace ⟨[' ', 'a', 'b', '1', '+'], 1, 1⟩).col + 1
          + (['b', '1', '+'].takeWhile isIdentChar).length⟩ :=
  ⟨by decide, by decide,
   identifier_start_amended ⟨[' ', 'a', 'b', '1', '+'], 1, 1⟩ 'a' ['b', '1', '+']
     (by decide) (by decide)⟩

/-!
Claim C6: decomposition lemmas.  Every successful `get_token` call
consumes a whitespace/comment chunk followed by the token's raw span,
where the raw span is the token's `text` plus, for string and character
literals, the two trimmed delimiters.
-/

theorem skipWsAux_decomp (rest : List Char) : ∀ (line col : Nat) (inC : Bool),
    ∃ ws, rest = ws ++ (skipWsAux rest line col inC).rest
      ∧ isWsChunkAux ws inC = true := by
  induction rest with
  | nil => exact fun line col inC => ⟨[], rfl, rfl⟩
  | cons c cs ih =>
      intro line col inC
      by_cases h1 : c = '\n'
      · obtain ⟨ws, hw, hchunk⟩ := ih (line + 1) 1 false
        refine ⟨c :: ws, ?_, ?_⟩
        · simp only [skipWsAux]
          rw [if_pos h1, List.cons_append, ← hw]
        · simp only [isWsChunkAux]
          rw [if_pos h1]
          exact hchunk
      · by_cases h2 : inC = true
        · obtain ⟨ws, hw, hchunk⟩ := ih line (col + 1) true
          refine ⟨c :: ws, ?_, ?_⟩
          · simp only [skipWsAux]
            rw [if_neg h1, if_pos h2, List.cons_append, ← hw]
          · simp only [isWsChunkAux]
            rw [if_neg h1, if_pos h2]
            exact hchunk
        · by_cases h3 : c = ' ' ∨ c = '\r' ∨ c = '\t'
          · obtain ⟨ws, hw, hchunk⟩ := ih line (col + 1) false
            refine ⟨c :: ws, ?_, ?_⟩
            · simp only [skipWsAux]
              rw [if_neg h1, if_neg h2, if_pos h3, List.cons_append, ← hw]
            · simp only [isWsChunkAux]
              rw [if_neg h1, if_neg h2, if_pos h3]
              exact hchunk
          · by_cases h4 : c = '#'
            · obtain ⟨ws, hw, hchunk⟩ := ih line (col + 1) true
              refine ⟨c :: ws, ?_, ?_⟩
              · simp only [skipWsAux]
                rw [if_neg h1, if_neg h2, if_neg h3, if_pos h4, List.cons_append, ← hw]
              · simp only [isWsChunkAux]
                rw [if_neg h1, if_neg h2, if_neg h3, if_pos h4]
                exact hchunk
            · refine ⟨[], ?_, rfl⟩
              simp only [skipWsAux]
              rw [if_neg h1, if_neg h2, if_neg h3, if_neg h4]
              rfl

theorem skipWhitespace_decomp (s : LexState) :
    ∃ ws, s.rest = ws ++ (skipWhitespace s).rest ∧ isWsChunk ws = true :=
  skipWsAux_decomp s.rest s.line s.col false

theorem literalScan_decomp (delim : Char) (rest : List Char) :
    ∀ (line col : Nat) (inner r2 : List Char) (l2 c2 : Nat),
      literalScan delim rest line col = .found inner r2 l2 c2 →
      rest = inner ++ delim :: r2 := by
  induction rest with
  | nil =>
      intro line col inner r2 l2 c2 h
      simp [literalScan] at h
  | cons c cs ih =>
      intro line col inner r2 l2 c2 h
      by_cases hc : c = delim
      · simp only [literalScan] at h
        rw [if_pos hc] at h
        rw [LitScan.found.injEq] at h
        obtain ⟨hi, hr, -, -⟩ := h
        rw [← hi, ← hr, hc]
        rfl
      · simp only [literalScan] at h
        rw [if_neg hc] at h
        by_cases hn : c = '\n'
        · rw [if_pos hn] at h
          cases hrec : literalScan delim cs (line + 1) 2 with
          | found i r l k =>
              rw [hrec] at h
              rw [LitScan.found.injEq] at h
              obtain ⟨hi, hr, -, -⟩ := h
              rw [← hi, ← hr, List.cons_append]
              rw [ih (line + 1) 2 i r l k hrec]
          | unterminated l k =>
              rw [hrec] at h
              exact LitScan.noConfusion h
        · rw [if_neg hn] at h
          cases hrec : literalScan delim cs line (col + 1) with
          | found i r l k =>
              rw [hrec] at h
              rw [LitScan.found.injEq] at h
              obtain ⟨hi, hr, -, -⟩ := h
              rw [← hi, ← hr, List.cons_append]
              rw [ih line (col + 1) i r l k hrec]
          | unterminated l k =>
              rw [hrec] at h
              exact LitScan.noConfusion h

theorem lookup_val_mem (l : List (String × TokenType)) (k : String) (v : TokenType)
    (h : l.lookup k = some v) : v ∈ l.map Prod.snd := by
  induction l with
  | nil => simp [List.lookup] at h
  | cons p ps ih =>
      obtain ⟨a, b⟩ := p
      cases hk : k == a
      · simp only [List.lookup, hk] at h
        simp [ih h]
      · simp only [List.lookup, hk] at h
        rw [Option.some.injEq] at h
        subst h
        simp

theorem identifierType_not_literal (s : List Char) :
    identifierType s ≠ .string ∧ identifierType s ≠ .character := by
  unfold identifierType
  cases hf : keywordMap.lookup s.asString with
  | none => simp
  | some tt =>
      simp only [Option.getD_some]
      have hall : ∀ v ∈ keywordMap.map Prod.snd,
          v ≠ TokenType.string ∧ v ≠ TokenType.character := by decide
      exact hall tt (lookup_val_mem _ _ _ hf)

theorem rawText_eq_text (t : Token) (h1 : t.type ≠ .string)
    (h2 : t.type ≠ .character) : rawText t = t.text := by
  unfold rawText
  split <;> simp_all

theorem numberSuffix_decomp (r1 : List Char) :
    r1 = (numberSuffix r1).1 ++ (numberSuffix r1).2.2
      ∧ (numberSuffix r1).2.1 ≠ .string
      ∧ (numberSuffix r1).2.1 ≠ .character := by
  unfold numberSuffix
  split <;> simp

theorem puncLookup_decomp (c : Char) (cs : List Char)
    (span : List Char) (tt : TokenType) (r2 : List Char)
    (h : puncLookup c cs = some (span, tt, r2)) :
    c :: cs = span ++ r2 ∧ span ≠ [] ∧ tt ≠ .string ∧ tt ≠ .character := by
  unfold puncLookup at h
  by_cases h0 : c = '('
  · rw [if_pos h0] at h
    rw [Option.some.injEq, Prod.mk.injEq, Prod.mk.injEq] at h
    obtain ⟨hs, ht, hr⟩ := h
    subst hs
    subst ht
    subst hr
    simp
  · rw [if_neg h0] at h
    by_cases h1 : c = ')'
    · rw [if_pos h1] at h
      rw [Option.some.injEq, Prod.mk.injEq, Prod.mk.injEq] at h
      obtain ⟨hs, ht, hr⟩ := h
      subst hs
      subst ht
      subst hr
      simp
    · rw [if_neg h1] at h
      by_cases h2 : c = '\x7b'
      · rw [if_pos h2] at h
        rw [Option.some.injEq, Prod.mk.injEq, Prod.mk.injEq] at h
        obtain ⟨hs, ht, hr⟩ := h
        subst hs
        subst ht
        subst hr
        simp
      · rw [if_neg h2] at h
        by_cases h3 : c = '\x7d'
        · rw [if_pos h3] at h
          rw [Option.some.injEq, Prod.mk.injEq, Prod.mk.injEq] at h
          obtain ⟨hs, ht, hr⟩ := h
          subst hs
          subst ht
          subst hr
          simp
        · rw [if_neg h3] at h
          by_cases h4 : c = '['
          · rw [if_pos h4] at h
            rw [Option.some.injEq, Prod.mk.injEq, Prod.mk.injEq] at h
            obtain ⟨hs, ht, hr⟩ := h
            subst hs
            subst ht
            subst hr
            simp
          · rw [if_neg h4] at h
            by_cases h5 : c = ']'
            · rw [if_pos h5] at h
              rw [Option.some.injEq, Prod.mk.injEq, Prod.mk.injEq] at h
              obtain ⟨hs, ht, hr⟩ := h
              subst hs
              subst ht
              subst hr
              simp
            · rw [if_neg h5] at h
              by_cases h6 : c = ';'
              · rw [if_pos h6] at h
                rw [Option.some.injEq, Prod.mk.injEq, Prod.mk.injEq] at h
                obtain ⟨hs, ht, hr⟩ := h
                subst hs
                subst ht
                subst hr
                simp
              · rw [if_neg h6] at h
                by_cases h7 : c = ','
                · rw [if_pos h7] at h
                  rw [Option.some.injEq, Prod.mk.injEq, Prod.mk.injEq] at h
                  obtain ⟨hs, ht, hr⟩ := h
                  subst hs
                  subst ht
                  subst hr
                  simp
                · rw [if_neg h7] at h
                  by_cases h8 : c = '.'
                  · rw [if_pos h8] at h
                    rw [Option.some.injEq, Prod.mk.injEq, Prod.mk.injEq] at h
                    obtain ⟨hs, ht, hr⟩ := h
                    subst hs
                    subst ht
                    subst hr
                    simp
                  · rw [if_neg h8] at h
                    by_cases h9 : c = '-'
                    · rw [if_pos h9] at h
                      by_cases hd9 : cs.headD '\x00' = '>'
                      · rw [if_pos hd9] at h
                        rw [Option.some.injEq, Prod.mk.injEq, Prod.mk.injEq] at h
                        obtain ⟨hs, ht, hr⟩ := h
                        subst hs
                        subst ht
                        subst hr
                        cases cs with
                        | nil => exact absurd hd9 (by decide)
                        | cons x xs =>
                            simp only [List.headD_cons] at hd9
                            subst hd9
                            simp
                      · rw [if_neg hd9] at h
                        rw [Option.some.injEq, Prod.mk.injEq, Prod.mk.injEq] at h
                        obtain ⟨hs, ht, hr⟩ := h
                        subst hs
                        subst ht
                        subst hr
                        simp
                    · rw [if_neg h9] at h
                      by_cases h10 : c = '+'
                      · rw [if_pos h10] at h
                        rw [Option.some.injEq, Prod.mk.injEq, Prod.mk.injEq] at h
                        obtain ⟨hs, ht, hr⟩ := h
                        subst hs
                        subst ht
                        subst hr
                        simp
                      · rw [if_neg h10] at h
                        by_cases h11 : c = '/'
                        · rw [if_pos h11] at h
                          rw [Option.some.injEq, Prod.mk.injEq, Prod.mk.injEq] at h
                          obtain ⟨hs, ht, hr⟩ := h
                          subst hs
                          subst ht
                          subst hr
                          simp
                        · rw [if_neg h11] at h
                          by_cases h12 : c = '*'
                          · rw [if_pos h12] at h
                            rw [Option.some.injEq, Prod.mk.injEq, Prod.mk.injEq] at h
                            obtain ⟨hs, ht, hr⟩ := h
                            subst hs
                            subst ht
                            subst hr
                            simp
                          · rw [if_neg h12] at h
                            by_cases h13 : c = '%'
                            · rw [if_pos h13] at h
                              rw [Option.some.injEq, Prod.mk.injEq, Prod.mk.injEq] at h
                              obtain ⟨hs, ht, hr⟩ := h
                              subst hs
                              subst ht
                              subst hr
                              simp
                            · rw [if_neg h13] at h
                              by_cases h14 : c = '!'
                              · rw [if_pos h14] at h
                                by_cases hd14 : cs.headD '\x00' = '='
                                · rw [if_pos hd14] at h
                                  rw [Option.some.injEq, Prod.mk.injEq, Prod.mk.injEq] at h
                                  obtain ⟨hs, ht, hr⟩ := h
                                  subst hs
                                  subst ht
                                  subst hr
                                  cases cs with
                                  | nil => exact absurd hd14 (by decide)
                                  | cons x xs =>
                                      simp only [List.headD_cons] at hd14
                                      subst hd14
                                      simp
                                · rw [if_neg hd14] at h
                                  rw [Option.some.injEq, Prod.mk.injEq, Prod.mk.injEq] at h
                                  obtain ⟨hs, ht, hr⟩ := h
                                  subst hs
                                  subst ht
                                  subst hr
                                  simp
                              · rw [if_neg h14] at h
                                by_cases h15 : c = '='
                                · rw [if_pos h15] at h
                                  by_cases hd15 : cs.headD '\x00' = '='
                                  · rw [if_pos hd15] at h
                                    rw [Option.some.injEq, Prod.mk.injEq, Prod.mk.injEq] at h
                                    obtain ⟨hs, ht, hr⟩ := h
                                    subst hs
                                    subst ht
                                    subst hr
                                    cases cs with
                                    | nil => exact absurd hd15 (by decide)
                                    | cons x xs =>
                                        simp only [List.headD_cons] at hd15
                                        subst hd15
                                        simp
                                  · rw [if_neg hd15] at h
                                    rw [Option.some.injEq, Prod.mk.injEq, Prod.mk.injEq] at h
                                    obtain ⟨hs, ht, hr⟩ := h
                                    subst hs
                                    subst ht
                                    subst hr
                                    simp
                                · rw [if_neg h15] at h
                                  by_cases h16 : c = '<'
                                  · rw [if_pos h16] at h
                                    by_cases hd16 : cs.headD '\x00' = '='
                                    · rw [if_pos hd16] at h
                                      rw [Option.some.injEq, Prod.mk.injEq, Prod.mk.injEq] at h
                                      obtain ⟨hs, ht, hr⟩ := h
                                      subst hs
                                      subst ht
                                      subst hr
                                      cases cs with
                                      | nil => exact absurd hd16 (by decide)
                                      | cons x xs =>
                                          simp only [List.headD_cons] at hd16
                                          subst hd16
                                          simp
                                    · rw [if_neg hd16] at h
                                      rw [Option.some.injEq, Prod.mk.injEq, Prod.mk.injEq] at h
                                      obtain ⟨hs, ht, hr⟩ := h
                                      subst hs
                                      subst ht
                                      subst hr
                                      simp
                                  · rw [if_neg h16] at h
                                    by_cases h17 : c = '>'
                                    · rw [if_pos h17] at h
                                      by_cases hd17 : cs.headD '\x00' = '='
                                      · rw [if_pos hd17] at h
                                        rw [Option.some.injEq, Prod.mk.injEq, Prod.mk.injEq] at h
                                        obtain ⟨hs, ht, hr⟩ := h
                                        subst hs
                                        subst ht
                                        subst hr
                                        cases cs with
                                        | nil => exact absurd hd17 (by decide)
                                        | cons x xs =>
                                            simp only [List.headD_cons] at hd17
                                            subst hd17
                                            simp
                                      · rw [if_neg hd17] at h
                                        rw [Option.some.injEq, Prod.mk.injEq, Prod.mk.injEq] at h
                                        obtain ⟨hs, ht, hr⟩ := h
                                        subst hs
                                        subst ht
                                        subst hr
                                        simp
                                    · rw [if_neg h17] at h
                                      by_cases h18 : c = ':'
                                      · rw [if_pos h18] at h
                                        by_cases hd18 : cs.headD '\x00' = '='
                                        · rw [if_pos hd18] at h
                                          rw [Option.some.injEq, Prod.mk.injEq, Prod.mk.injEq] at h
                                          obtain ⟨hs, ht, hr⟩ := h
                                          subst hs
                                          subst ht
                                          subst hr
                                          cases cs with
                                          | nil => exact absurd hd18 (by decide)
                                          | cons x xs =>
                                              simp only [List.headD_cons] at hd18
                                              subst hd18
                                              simp
                                        · rw [if_neg hd18] at h
                                          rw [Option.some.injEq, Prod.mk.injEq, Prod.mk.injEq] at h
                                          obtain ⟨hs, ht, hr⟩ := h
                                          subst hs
                                          subst ht
                                          subst hr
                                          simp
                                      · rw [if_neg h18] at h
                                        by_cases h19 : c = '|'
                                        · rw [if_pos h19] at h
                                          by_cases hd19 : cs.headD '\x00' = '|'
                                          · rw [if_pos hd19] at h
                                            rw [Option.some.injEq, Prod.mk.injEq, Prod.mk.injEq] at h
                                            obtain ⟨hs, ht, hr⟩ := h
                                            subst hs
                                            subst ht
                                            subst hr
                                            cases cs with
                                            | nil => exact absurd hd19 (by decide)
                                            | cons x xs =>
                                                simp only [List.headD_cons] at hd19
                                                subst hd19
                                                simp
                                          · rw [if_neg hd19] at h
                                            rw [Option.some.injEq, Prod.mk.injEq, Prod.mk.injEq] at h
                                            obtain ⟨hs, ht, hr⟩ := h
                                            subst hs
                                            subst ht
                                            subst hr
                                            simp
                                        · rw [if_neg h19] at h
                                          by_cases h20 : c = '&'
                                          · rw [if_pos h20] at h
                                            by_cases hd20 : cs.headD '\x00' = '&'
                                            · rw [if_pos hd20] at h
                                              rw [Option.some.injEq, Prod.mk.injEq, Prod.mk.injEq] at h
                                              obtain ⟨hs, ht, hr⟩ := h
                                              subst hs
                                              subst ht
                                              subst hr
                                              cases cs with
                                              | nil => exact absurd hd20 (by decide)
                                              | cons x xs =>
                                                  simp only [List.headD_cons] at hd20
                                                  subst hd20
                                                  simp
                                            · rw [if_neg hd20] at h
                                              rw [Option.some.injEq, Prod.mk.injEq, Prod.mk.injEq] at h
                                              obtain ⟨hs, ht, hr⟩ := h
                                              subst hs
                                              subst ht
                                              subst hr
                                              simp
                                          · rw [if_neg h20] at h
                                            exact Option.noConfusion h

theorem identTok_decomp (c : Char) (cs : List Char) (ln co : Nat)
    (t : Token) (s2 : LexState) (h : identTok c cs ln co = .tok t s2) :
    c :: cs = rawText t ++ s2.rest ∧ rawText t ≠ [] := by
  simp only [identTok, mkToken] at h
  rw [GetTokenResult.tok.injEq] at h
  obtain ⟨ht, hs⟩ := h
  subst ht
  subst hs
  have hne := identifierType_not_literal (c :: cs.takeWhile isIdentChar)
  rw [rawText_eq_text _ hne.1 hne.2]
  refine ⟨?_, by simp⟩
  show c :: cs = (c :: cs.takeWhile isIdentChar) ++ cs.dropWhile isIdentChar
  rw [List.cons_append, List.takeWhile_append_dropWhile]

theorem numberTok_decomp (c : Char) (cs : List Char) (ln co : Nat)
    (t : Token) (s2 : LexState) (h : numberTok c cs ln co = .tok t s2) :
    c :: cs = rawText t ++ s2.rest ∧ rawText t ≠ [] := by
  simp only [numberTok, mkToken] at h
  split at h
  · -- fractional branch
    rename_i hcond
    simp only [Bool.and_eq_true, decide_eq_true_eq] at hcond
    obtain ⟨hdot, -⟩ := hcond
    rw [GetTokenResult.tok.injEq] at h
    obtain ⟨ht, hs⟩ := h
    subst ht
    subst hs
    cases hr1 : cs.dropWhile isDigit with
    | nil =>
        rw [hr1] at hdot
        exact absurd hdot (by decide)
    | cons x xs =>
        rw [hr1] at hdot
        simp only [List.headD_cons] at hdot
        subst hdot
        have hcs : cs = cs.takeWhile isDigit ++ '.' :: xs := by
          conv_lhs => rw [← List.takeWhile_append_dropWhile isDigit cs, hr1]
        refine ⟨?_, by simp [rawText]⟩
        simp only [rawText, List.tail_cons]
        conv_lhs => rw [hcs]
        simp [List.takeWhile_append_dropWhile, List.append_assoc]
  · -- integer-suffix branch
    obtain ⟨hsplit, hns, hnc⟩ := numberSuffix_decomp (cs.dropWhile isDigit)
    set suf := numberSuffix (cs.dropWhile isDigit) with hsuf
    rw [GetTokenResult.tok.injEq] at h
    obtain ⟨ht, hs⟩ := h
    subst ht
    subst hs
    rw [rawText_eq_text _ hns hnc]
    refine ⟨?_, by simp⟩
    show c :: cs = (c :: cs.takeWhile isDigit ++ suf.1) ++ suf.2.2
    conv_lhs => rw [← List.takeWhile_append_dropWhile isDigit cs, hsplit]
    simp [List.append_assoc]

theorem charLitTok_decomp (cs : List Char) (ln co : Nat)
    (t : Token) (s2 : LexState) (h : charLitTok cs ln co = .tok t s2) :
    '\x27' :: cs = rawText t ++ s2.rest ∧ rawText t ≠ [] := by
  unfold charLitTok at h
  cases hscan : literalScan '\x27' cs ln co with
  | unterminated l k =>
      simp only [hscan] at h
      exact GetTokenResult.noConfusion h
  | found inner rest l2 c2 =>
      simp only [hscan] at h
      split at h
      · exact GetTokenResult.noConfusion h
      · rw [GetTokenResult.tok.injEq] at h
        obtain ⟨ht, hs⟩ := h
        subst ht
        subst hs
        refine ⟨?_, by simp [rawText]⟩
        simp only [rawText]
        rw [literalScan_decomp '\x27' cs ln co inner rest l2 c2 hscan]
        simp

theorem stringLitTok_decomp (cs : List Char) (ln co : Nat)
    (t : Token) (s2 : LexState) (h : stringLitTok cs ln co = .tok t s2) :
    '"' :: cs = rawText t ++ s2.rest ∧ rawText t ≠ [] := by
  unfold stringLitTok at h
  cases hscan : literalScan '"' cs ln co with
  | unterminated l k =>
      simp only [hscan] at h
      exact GetTokenResult.noConfusion h
  | found inner rest l2 c2 =>
      simp only [hscan] at h
      rw [GetTokenResult.tok.injEq] at h
      obtain ⟨ht, hs⟩ := h
      subst ht
      subst hs
      refine ⟨?_, by simp [rawText]⟩
      simp only [rawText]
      rw [literalScan_decomp '"' cs ln co inner rest l2 c2 hscan]
      simp

theorem getTokenAfterWs_decomp (s1 : LexState) (t : Token) (s2 : LexState)
    (h : getTokenAfterWs s1 = .tok t s2) :
    s1.rest = rawText t ++ s2.rest ∧ rawText t ≠ [] := by
  cases hr : s1.rest with
  | nil =>
      unfold getTokenAfterWs at h
      rw [hr] at h
      exact GetTokenResult.noConfusion h
  | cons c cs =>
      simp only [getTokenAfterWs, hr] at h
      by_cases ha : isAlpha c = true
      · rw [if_pos ha] at h
        exact identTok_decomp c cs _ _ t s2 h
      · rw [if_neg ha] at h
        by_cases hd : isDigit c = true
        · rw [if_pos hd] at h
          exact numberTok_decomp c cs _ _ t s2 h
        · rw [if_neg hd] at h
          by_cases hq : c = '\x27'
          · rw [if_pos hq] at h
            subst hq
            exact charLitTok_decomp cs _ _ t s2 h
          · rw [if_neg hq] at h
            by_cases hq2 : c = '"'
            · rw [if_pos hq2] at h
              subst hq2
              exact stringLitTok_decomp cs _ _ t s2 h
            · rw [if_neg hq2] at h
              cases hp : puncLookup c cs with
              | none =>
                  simp only [hp] at h
                  exact GetTokenResult.noConfusion h
              | some r =>
                  simp only [hp] at h
                  rw [GetTokenResult.tok.injEq] at h
                  obtain ⟨ht, hs⟩ := h
                  subst ht
                  subst hs
                  obtain ⟨hsp, hne, hns, hnc⟩ :=
                    puncLookup_decomp c cs r.1 r.2.1 r.2.2 (by rw [hp])
                  rw [rawText_eq_text _ hns hnc]
                  exact ⟨hsp, hne⟩

theorem getTokenAfterWs_ne_eof (s1 : LexState) (c : Char) (cs : List Char)
    (hr : s1.rest = c :: cs) (s3 : LexState) :
    getTokenAfterWs s1 ≠ .eofTok s3 := by
  intro h
  simp only [getTokenAfterWs, hr] at h
  by_cases ha : isAlpha c = true
  · rw [if_pos ha] at h
    simp only [identTok] at h
    exact GetTokenResult.noConfusion h
  · rw [if_neg ha] at h
    by_cases hd : isDigit c = true
    · rw [if_pos hd] at h
      simp only [numberTok] at h
      split at h
      · exact GetTokenResult.noConfusion h
      · exact GetTokenResult.noConfusion h
    · rw [if_neg hd] at h
      by_cases hq : c = '\x27'
      · rw [if_pos hq] at h
        unfold charLitTok at h
        cases hscan : literalScan '\x27' cs s1.line (s1.col + 1) with
        | unterminated l k =>
            simp only [hscan] at h
            exact GetTokenResult.noConfusion h
        | found inner rest l2 c2 =>
            simp only [hscan] at h
            split at h
            · exact GetTokenResult.noConfusion h
            · exact GetTokenResult.noConfusion h
      · rw [if_neg hq] at h
        by_cases hq2 : c = '"'
        · rw [if_pos hq2] at h
          unfold stringLitTok at h
          cases hscan : literalScan '"' cs s1.line (s1.col + 1) with
          | unterminated l k =>
              simp only [hscan] at h
              exact GetTokenResult.noConfusion h
          | found inner rest l2 c2 =>
              simp only [hscan] at h
              exact GetTokenResult.noConfusion h
        · rw [if_neg hq2] at h
          cases hp : puncLookup c cs with
          | none =>
              simp only [hp] at h
              exact GetTokenResult.noConfusion h
          | some r =>
              simp only [hp] at h
              exact GetTokenResult.noConfusion h

theorem getToken_tok_decomp (s0 : LexState) (t : Token) (s2 : LexState)
    (h : getToken s0 = .tok t s2) :
    ∃ ws, isWsChunk ws = true ∧ s0.rest = ws ++ (rawText t ++ s2.rest)
      ∧ rawText t ≠ [] := by
  obtain ⟨ws, hws, hchunk⟩ := skipWhitespace_decomp s0
  obtain ⟨hspan, hne⟩ := getTokenAfterWs_decomp (skipWhitespace s0) t s2 h
  exact ⟨ws, hchunk, by rw [hws, hspan], hne⟩

theorem getToken_eof (s0 s1 : LexState) (h : getToken s0 = .eofTok s1) :
    isWsChunk s0.rest = true := by
  obtain ⟨ws, hws, hchunk⟩ := skipWhitespace_decomp s0
  cases hr : (skipWhitespace s0).rest with
  | nil =>
      rw [hws, hr, List.append_nil]
      exact hchunk
  | cons c cs =>
      unfold getToken at h
      exact absurd h (getTokenAfterWs_ne_eof (skipWhitespace s0) c cs hr s1)

theorem scanAux_decomp (fuel : Nat) : ∀ (s : LexState) (toks : List Token),
    scanAux fuel s = .ok toks →
    ∃ chunks trailing, chunks.length = toks.length ∧
      s.rest = (List.zipWith (fun w t => w ++ rawText t) chunks toks).flatten ++ trailing ∧
      (∀ w ∈ chunks, isWsChunk w = true) ∧ isWsChunk trailing = true := by
  induction fuel with
  | zero =>
      intro s toks h
      exact ScanResult.noConfusion h
  | succ fuel ih =>
      intro s toks h
      simp only [scanAux] at h
      cases hg : getToken s with
      | eofTok s1 =>
          simp only [hg] at h
          rw [ScanResult.ok.injEq] at h
          subst h
          exact ⟨[], s.rest, rfl, rfl, by simp, getToken_eof s s1 hg⟩
      | err l k m =>
          simp only [hg] at h
          exact ScanResult.noConfusion h
      | tok t s2 =>
          simp only [hg] at h
          cases hrec : scanAux fuel s2 with
          | ok ts =>
              simp only [hrec] at h
              rw [ScanResult.ok.injEq] at h
              subst h
              obtain ⟨chunks, trailing, hlen, hrest, hall, htr⟩ := ih s2 ts hrec
              obtain ⟨ws, hchunk, hspan, -⟩ := getToken_tok_decomp s t s2 hg
              refine ⟨ws :: chunks, trailing, by simp [hlen], ?_, ?_, htr⟩
              · rw [hspan, hrest]
                simp [List.append_assoc]
              · intro w hw
                rcases List.mem_cons.mp hw with hw | hw
                · rw [hw]
                  exact hchunk
                · exact hall w hw
          | fatal l k m =>
              simp only [hrec] at h
              exact ScanResult.noConfusion h
          | outOfFuel =>
              simp only [hrec] at h
              exact ScanResult.noConfusion h

/-- C6 (amended): token coverage with literal delimiters excluded.  For
every source text the lexer scans to eof without a fatal error, the
source decomposes, in order, into alternating whitespace/comment chunks
and token spans (plus trailing whitespace/comments), where each emitted
token's span is its `text` slice — except for string and character
literals, whose two quote delimiters are consumed but trimmed off the
token text by `make_literal`.  Hence every non-whitespace non-comment
byte other than the literal delimiters appears in exactly one token's
text, in source order. -/
theorem token_coverage_amended (src : List Char) (toks : List Token)
    (h : scanTokens src = .ok toks) :
    ∃ chunks trailing, chunks.length = toks.length ∧
      src = (List.zipWith (fun w t => w ++ rawText t) chunks toks).flatten ++ trailing ∧
      (∀ w ∈ chunks, isWsChunk w = true) ∧ isWsChunk trailing = true :=
  scanAux_decomp (src.length + 1) ⟨src, 1, 1⟩ toks h

/-- C6 counterexample: for the source `"ab"` (a single string literal)
the lexer emits one token with text `ab` — the two quote bytes appear in
no token's text, so concatenating the token texts does not yield the
source minus comments and whitespace. -/
theorem token_coverage_counterexample :
    scanTokens ['"', 'a', 'b', '"']
      = .ok [{ text := ['a', 'b'], line := 1, col := 1, type := .string }] ∧
    stripWsComments ['"', 'a', 'b', '"'] = ['"', 'a', 'b', '"'] ∧
    ([{ text := ['a', 'b'], line := 1, col := 1,
        type := TokenType.string }].map Token.text).flatten = ['a', 'b'] ∧
    (['a', 'b'] : List Char) ≠ ['"', 'a', 'b', '"'] := by
  decide

/-- Witness for C6 at the concrete source `a b`: the scan succeeds by
computation and the decomposition follows by applying the theorem. -/
theorem token_coverage_amended_witness :
    scanTokens ['a', ' ', 'b']
      = .ok [{ text := ['a'], line := 1, col := 1, type := .identifier },
             { text := ['b'], line := 1, col := 3, type := .identifier }] ∧
    (∃ chunks trailing,
      chunks.length = [({ text := ['a'], line := 1, col := 1, type := .identifier } : Token),
                       { text := ['b'], line := 1, col := 3, type := .identifier }].length ∧
      ['a', ' ', 'b'] = (List.zipWith (fun w t => w ++ rawText t) chunks
          [({ text := ['a'], line := 1, col := 1, type := .identifier } : Token),
           { text := ['b'], line := 1, col := 3, type := .identifier }]).flatten ++ trailing ∧
      (∀ w ∈ chunks, isWsChunk w = true) ∧ isWsChunk trailing = true) :=
  ⟨by decide, token_coverage_amended ['a', ' ', 'b'] _ (by decide)⟩

end Anzu
